import Mathlib

/-!
Message code registry (`coderegistry.go`).

A shallow embedding of the registry store of `coderegistry.go` and a
verification of its specification.

The Go program keeps one process-wide table `messageCodes` of type
`map[int]*MessageCode`.  The map holds *pointers*: `modifyCode` and
`deleteCode` update the record they find in place and then store the same
pointer again under the key `code.Code`.  The embedding therefore keeps a heap
of records next to the map, so that a record reachable under two keys is one
record, as it is in Go.

* `heap`          the records allocated so far; a pointer is an index
* `messageCodes`  the map, an association list from key to pointer
* `file`          the contents of `codes.gob`
* `modlock`       the channel of capacity one used as the mutation gate

The clock (`time.Now().UTC()`) and the behaviour of the file system
(`os.Create`, `Encoder.Encode`) are inputs of every call.
-/

namespace CodeRegistry

/-- A `time.Time` in UTC without monotonic reading, as nanoseconds since the
Unix epoch. -/
abbrev Time := Int

/-- A `net.IP`: a slice of bytes; `nil` is the empty list. -/
abbrev IP := List (Fin 256)

/-- The record type `MessageCode`, field for field. -/
structure MessageCode where
  Code : Int
  Deleted : Bool
  Title : String
  Description : String
  Created : Time
  CreatedIp : IP
  Modified : Time
  ModifiedIp : IP
deriving DecidableEq, Repr

/-- A `*MessageCode` that is not nil: an index into the heap. -/
abbrev Ptr := Nat

/-- The contents of `codes.gob`.  A snapshot is the encoded map: gob writes
the records themselves, not the pointers. -/
inductive Disk where
  | absent
  | damaged
  | snapshot (t : List (Int × MessageCode))
deriving DecidableEq, Repr

/-- What the file system does during one mutating call: `os.Create` fails,
`os.Create` succeeds and `Encode` fails, or both succeed. -/
inductive Storage where
  | createFails
  | encodeFails
  | ok
deriving DecidableEq, Repr

/-- How a call ends: it returns a pointer (or nil), the process exits through
`os.Exit(1)`, the goroutine panics on a nil dereference, or it blocks on
`modlock <- true` because the gate is held. -/
inductive Outcome where
  | returned (code : Option Ptr)
  | exited
  | faulted
  | blocked
deriving DecidableEq, Repr

/-- The state of the process together with the snapshot file. -/
structure State where
  heap : List MessageCode
  messageCodes : List (Int × Ptr)
  file : Disk
  modlock : Bool
deriving DecidableEq, Repr

/-- Map read `m[k]`; `none` is the nil pointer Go yields for a missing key. -/
def mapGet : List (Int × Ptr) → Int → Option Ptr
  | [], _ => none
  | (k', p) :: rest, k => if k' = k then some p else mapGet rest k

/-- Map write `m[k] = p`: replaces the entry of an existing key, adds a new
entry otherwise. -/
def mapSet : List (Int × Ptr) → Int → Ptr → List (Int × Ptr)
  | [], k, p => [(k, p)]
  | (k', p') :: rest, k, p =>
    if k' = k then (k, p) :: rest else (k', p') :: mapSet rest k p

/-- The keys of the map. -/
def mapKeys (m : List (Int × Ptr)) : List Int := m.map Prod.fst

/-- Go's `len(m)`. -/
def mapLen (m : List (Int × Ptr)) : Int := (m.length : Int)

/-- The record stored under key `k`: the map read followed by the
dereference. -/
def State.lookup (s : State) (k : Int) : Option MessageCode :=
  match mapGet s.messageCodes k with
  | none => none
  | some p => s.heap[p]?

/-- The record a returned pointer points at. -/
def State.deref (s : State) (p : Ptr) : Option MessageCode := s.heap[p]?

/-- What `encoder.Encode(messageCodes)` writes: every key with the record
its pointer leads to. -/
def encodeTable (heap : List MessageCode) : List (Int × Ptr) → List (Int × MessageCode)
  | [] => []
  | (k, p) :: rest =>
    match heap[p]? with
    | some r => (k, r) :: encodeTable heap rest
    | none => encodeTable heap rest

/-- Reading a key from a decoded snapshot. -/
def snapGet : List (Int × MessageCode) → Int → Option MessageCode
  | [], _ => none
  | (k', r) :: rest, k => if k' = k then some r else snapGet rest k

/-- The state of a process that started without a snapshot file. -/
def State.empty : State :=
  { heap := [], messageCodes := [], file := Disk.absent, modlock := false }

/-- The tail shared by `addCode`, `modifyCode` and `deleteCode`, from
`os.Create("codes.gob")` to the `return`; `s` is the state with the gate
held and the table already changed. -/
def persist (code : Ptr) (io : Storage) (s : State) : Outcome × State :=
  match io with
  | Storage.createFails => (Outcome.returned none, { s with modlock := false })
  | Storage.encodeFails => (Outcome.exited, { s with file := Disk.damaged })
  | Storage.ok =>
    (Outcome.returned (some code),
      { s with file := Disk.snapshot (encodeTable s.heap s.messageCodes), modlock := false })

/-- The function `addCode`; `now` is the value of `time.Now().UTC()`. -/
def addCode (title description : String) (ip : IP) (now : Time) (io : Storage)
    (s : State) : Outcome × State :=
  if s.modlock then (Outcome.blocked, s) else
  let code : Ptr := s.heap.length
  let r : MessageCode :=
    { Code := mapLen s.messageCodes
      Deleted := false
      Title := title
      Description := description
      Created := now
      Modified := now
      CreatedIp := ip
      ModifiedIp := ip }
  persist code io
    { s with heap := s.heap ++ [r]
             messageCodes := mapSet s.messageCodes r.Code code
             modlock := true }

/-- The function `modifyCode`.  A missing key reads as nil and the first
field assignment panics with the gate held. -/
def modifyCode (id : Int) (title description : String) (ip : IP) (now : Time)
    (io : Storage) (s : State) : Outcome × State :=
  if s.modlock then (Outcome.blocked, s) else
  match mapGet s.messageCodes id with
  | none => (Outcome.faulted, { s with modlock := true })
  | some code =>
    match s.heap[code]? with
    | none => (Outcome.faulted, { s with modlock := true })
    | some r =>
      let r1 : MessageCode :=
        { r with Title := title, Description := description, Modified := now, ModifiedIp := ip }
      persist code io
        { s with heap := s.heap.set code r1
                 messageCodes := mapSet s.messageCodes r1.Code code
                 modlock := true }

/-- The function `deleteCode`.  The parameter `ip` is not used by the body,
and the clock is not read. -/
def deleteCode (id : Int) (deleted : Bool) (_ip : IP) (io : Storage)
    (s : State) : Outcome × State :=
  if s.modlock then (Outcome.blocked, s) else
  match mapGet s.messageCodes id with
  | none => (Outcome.faulted, { s with modlock := true })
  | some code =>
    match s.heap[code]? with
    | none => (Outcome.faulted, { s with modlock := true })
    | some r =>
      let r1 : MessageCode := { r with Deleted := deleted }
      persist code io
        { s with heap := s.heap.set code r1
                 messageCodes := mapSet s.messageCodes r1.Code code
                 modlock := true }

/-- One call of a mutating operation with its inputs. -/
inductive Call where
  | add (title description : String) (ip : IP) (now : Time) (io : Storage)
  | modify (id : Int) (title description : String) (ip : IP) (now : Time) (io : Storage)
  | delete (id : Int) (deleted : Bool) (ip : IP) (io : Storage)
deriving DecidableEq, Repr

/-- Performing one call. -/
def step (c : Call) (s : State) : Outcome × State :=
  match c with
  | Call.add t d ip now io => addCode t d ip now io s
  | Call.modify id t d ip now io => modifyCode id t d ip now io s
  | Call.delete id del ip io => deleteCode id del ip io s

/-- A sequence of calls made one after the other, each of which returns
(with a record, or with nil after `os.Create` failed).  The result is the
list of returned values and the final state; `none` when some call exits,
panics or blocks. -/
def run : List Call → State → Option (List (Option Ptr) × State)
  | [], s => some ([], s)
  | c :: cs, s =>
    match step c s with
    | (Outcome.returned p, s1) =>
      match run cs s1 with
      | some (ps, s2) => some (p :: ps, s2)
      | none => none
    | _ => none

/-- The heap discipline Go guarantees: every pointer in the map leads to an
allocated record, and a map has each key once. -/
def State.WF (s : State) : Prop :=
  (∀ kp ∈ s.messageCodes, kp.2 < s.heap.length) ∧ (mapKeys s.messageCodes).Nodup

instance (s : State) : Decidable s.WF := by
  unfold State.WF; infer_instance

/-- The address `10.0.0.1` as `net.ParseIP` returns it (16 bytes). -/
def ip_10_0_0_1 : IP := [0, 0, 0, 0, 0, 0, 0, 0, 0, 0, 255, 255, 10, 0, 0, 1]

/-- The address `10.0.0.2` as `net.ParseIP` returns it. -/
def ip_10_0_0_2 : IP := [0, 0, 0, 0, 0, 0, 0, 0, 0, 0, 255, 255, 10, 0, 0, 2]

/-- The address `10.0.0.3` as `net.ParseIP` returns it. -/
def ip_10_0_0_3 : IP := [0, 0, 0, 0, 0, 0, 0, 0, 0, 0, 255, 255, 10, 0, 0, 3]

/-! ## States used in examples, the shape of a call, the invariant -/

/-- The record `addCode` builds. -/
def newRecord (s : State) (title description : String) (ip : IP) (now : Time) : MessageCode :=
  { Code := mapLen s.messageCodes
    Deleted := false
    Title := title
    Description := description
    Created := now
    CreatedIp := ip
    Modified := now
    ModifiedIp := ip }

/-- A table whose only record is stored under key 0 and carries `Code = 5`,
as a snapshot file can hold it. -/
def strayState : State :=
  { heap := [{ Code := 5, Deleted := false, Title := "a", Description := "",
               Created := 1, CreatedIp := ip_10_0_0_1, Modified := 1,
               ModifiedIp := ip_10_0_0_1 }]
    messageCodes := [(0, 0)]
    file := Disk.absent
    modlock := false }

/-- The record of the scenario `Add("Timeout", "Request took too long",
10.0.0.1)` made at time 1000 on the empty table. -/
def timeoutRecord : MessageCode :=
  { Code := 0, Deleted := false, Title := "Timeout", Description := "Request took too long",
    Created := 1000, CreatedIp := ip_10_0_0_1, Modified := 1000, ModifiedIp := ip_10_0_0_1 }

/-- The state after that call. -/
def timeoutState : State :=
  { heap := [timeoutRecord]
    messageCodes := [(0, 0)]
    file := Disk.snapshot [(0, timeoutRecord)]
    modlock := false }

/-- The state after `Modify(0, "Timeout Error", "Request took too long",
10.0.0.2)` made at time 2000 on `timeoutState`. -/
def timeoutErrorState : State :=
  { heap := [{ timeoutRecord with Title := "Timeout Error", Modified := 2000,
                                  ModifiedIp := ip_10_0_0_2 }]
    messageCodes := [(0, 0)]
    file := Disk.snapshot [(0, { timeoutRecord with Title := "Timeout Error", Modified := 2000,
                                                    ModifiedIp := ip_10_0_0_2 })]
    modlock := false }

/-- The three ways a call acts on the heap and the map: it leaves both alone
(it blocked, or panicked on a missing key), it allocates a record whose code is
the size of the map and stores it under that code (`addCode`), or it rewrites a
record found in the map, keeping `Code`, `Created` and `CreatedIp`, and stores
its pointer under the record's code (`modifyCode`, `deleteCode`). -/
def TableStep (s s1 : State) : Prop :=
  (s1.heap = s.heap ∧ s1.messageCodes = s.messageCodes) ∨
  (∃ r : MessageCode, r.Code = mapLen s.messageCodes ∧ s1.heap = s.heap ++ [r] ∧
      s1.messageCodes = mapSet s.messageCodes (mapLen s.messageCodes) s.heap.length) ∨
  (∃ (id : Int) (q : Ptr) (r r1 : MessageCode),
      mapGet s.messageCodes id = some q ∧ s.heap[q]? = some r ∧ r1.Code = r.Code ∧
      r1.Created = r.Created ∧ r1.CreatedIp = r.CreatedIp ∧
      s1.heap = s.heap.set q r1 ∧ s1.messageCodes = mapSet s.messageCodes r.Code q)

/-- The invariant of the registry: the heap discipline, the keys are exactly
`0, ..., len - 1`, and every record is stored under its own code. -/
def State.Inv (s : State) : Prop :=
  s.WF ∧
  (∀ k, k ∈ mapKeys s.messageCodes ↔ 0 ≤ k ∧ k < mapLen s.messageCodes) ∧
  ∀ k r, s.lookup k = some r → r.Code = k

/-- Whether a call is a call of `addCode`. -/
def Call.isAdd : Call → Bool
  | Call.add _ _ _ _ _ => true
  | _ => false

/-- Three calls of `addCode`, the second of which fails at opening the
snapshot file. -/
def threeAdds : List Call :=
  [Call.add "a" "" ip_10_0_0_1 1 Storage.ok,
   Call.add "b" "" ip_10_0_0_1 2 Storage.createFails,
   Call.add "c" "" ip_10_0_0_1 3 Storage.ok]

/-- The state after `threeAdds`. -/
def threeAddsState : State :=
  { heap :=
      [{ Code := 0, Deleted := false, Title := "a", Description := "", Created := 1,
         CreatedIp := ip_10_0_0_1, Modified := 1, ModifiedIp := ip_10_0_0_1 },
       { Code := 1, Deleted := false, Title := "b", Description := "", Created := 2,
         CreatedIp := ip_10_0_0_1, Modified := 2, ModifiedIp := ip_10_0_0_1 },
       { Code := 2, Deleted := false, Title := "c", Description := "", Created := 3,
         CreatedIp := ip_10_0_0_1, Modified := 3, ModifiedIp := ip_10_0_0_1 }]
    messageCodes := [(0, 0), (1, 1), (2, 2)]
    file := Disk.snapshot
      [(0, { Code := 0, Deleted := false, Title := "a", Description := "", Created := 1,
             CreatedIp := ip_10_0_0_1, Modified := 1, ModifiedIp := ip_10_0_0_1 }),
       (1, { Code := 1, Deleted := false, Title := "b", Description := "", Created := 2,
             CreatedIp := ip_10_0_0_1, Modified := 2, ModifiedIp := ip_10_0_0_1 }),
       (2, { Code := 2, Deleted := false, Title := "c", Description := "", Created := 3,
             CreatedIp := ip_10_0_0_1, Modified := 3, ModifiedIp := ip_10_0_0_1 })]
    modlock := false }

/-- Calls made after the `Add` of the specification's scenario: a
modification, a deletion, a failed and a successful `addCode`, and an
undeletion that fails at opening the snapshot file. -/
def laterCalls : List Call :=
  [Call.modify 0 "Timeout Error" "Request took too long" ip_10_0_0_2 2000 Storage.ok,
   Call.delete 0 true ip_10_0_0_3 Storage.ok,
   Call.add "b" "" ip_10_0_0_2 3000 Storage.createFails,
   Call.add "c" "" ip_10_0_0_3 4000 Storage.ok,
   Call.delete 0 false ip_10_0_0_3 Storage.createFails]

/-! ## The request handlers, the listing and the startup load -/

/-- The value of a decimal digit, as `strconv` reads it in base 10. -/
def digitVal (c : Char) : Option Nat :=
  if '0' ≤ c ∧ c ≤ '9' then some (c.toNat - 48) else none

/-- The digits of `strconv.ParseUint(s, 10, ...)` read from the left onto the
value `acc`; `none` is the syntax error for a character that is no digit. -/
def parseDigits : List Char → Nat → Option Nat
  | [], acc => some acc
  | c :: cs, acc =>
    match digitVal c with
    | none => none
    | some d => parseDigits cs (acc * 10 + d)

/-- The unsigned part: the empty string is a syntax error. -/
def parseUint : List Char → Option Nat
  | [] => none
  | cs => parseDigits cs 0

/-- The library call `strconv.ParseInt(s, 10, 0)` where `int` has 64 bits:
an optional sign followed by decimal digits, an error (`none`) for the empty
string, for any other character, and for a value outside
`-2^63 .. 2^63 - 1`. -/
def parseInt (s : String) : Option Int :=
  match s.data with
  | [] => none
  | '+' :: cs =>
    match parseUint cs with
    | none => none
    | some un => if un ≥ 2 ^ 63 then none else some (un : Int)
  | '-' :: cs =>
    match parseUint cs with
    | none => none
    | some un => if un > 2 ^ 63 then none else some (-(un : Int))
  | cs =>
    match parseUint cs with
    | none => none
    | some un => if un ≥ 2 ^ 63 then none else some (un : Int)

/-- What a handler reads from an `*http.Request`: the address
`net.ParseIP(host)` of the client and the form values (`r.FormValue` yields
the empty string for a field that is absent). -/
structure Request where
  ip : IP
  id : String
  title : String
  description : String
  delete : String
  undelete : String
deriving DecidableEq, Repr

/-- What a handler writes: a line of text, or the redirect to the listing
(`http.StatusSeeOther`). -/
inductive Reply where
  | text (line : String)
  | seeOther
deriving DecidableEq, Repr

/-- How a handler ends: it answers, or the call it made exits the process,
panics, or blocks. -/
inductive Handled where
  | replied (r : Reply)
  | exited
  | faulted
  | blocked
deriving DecidableEq, Repr

/-- The function `addHandler`; `now` and `io` are the clock and the file
system met by the call of `addCode`. -/
def addHandler (r : Request) (now : Time) (io : Storage) (s : State) : Handled × State :=
  if r.title = "" then (Handled.replied (Reply.text "Requires TITLE field."), s) else
  match addCode r.title r.description r.ip now io s with
  | (Outcome.returned _, s1) => (Handled.replied Reply.seeOther, s1)
  | (Outcome.exited, s1) => (Handled.exited, s1)
  | (Outcome.faulted, s1) => (Handled.faulted, s1)
  | (Outcome.blocked, s1) => (Handled.blocked, s1)

/-- The part of `modifyHandler` after the deletion flags: the title check
and the call of `modifyCode`. -/
def modifyHandlerTail (r : Request) (id : Int) (now : Time) (io : Storage) (s : State) :
    Handled × State :=
  if r.title = "" then (Handled.replied (Reply.text "Requires TITLE field."), s) else
  match modifyCode id r.title r.description r.ip now io s with
  | (Outcome.returned _, s1) => (Handled.replied Reply.seeOther, s1)
  | (Outcome.exited, s1) => (Handled.exited, s1)
  | (Outcome.faulted, s1) => (Handled.faulted, s1)
  | (Outcome.blocked, s1) => (Handled.blocked, s1)

/-- The function `modifyHandler`; `ioDelete` is the file system met by the
call of `deleteCode`, `now` and `ioModify` are the clock and the file system
met by the call of `modifyCode`. -/
def modifyHandler (r : Request) (now : Time) (ioDelete ioModify : Storage) (s : State) :
    Handled × State :=
  if r.id = "" then (Handled.replied (Reply.text "Requires ID field."), s) else
  match parseInt r.id with
  | none => (Handled.replied (Reply.text "Requires ID field that is an integer."), s)
  | some id =>
    let delete : Bool := r.delete ≠ ""
    let undelete : Bool := r.undelete ≠ ""
    if delete || undelete then
      match deleteCode id delete r.ip ioDelete s with
      | (Outcome.returned _, s1) => modifyHandlerTail r id now ioModify s1
      | (Outcome.exited, s1) => (Handled.exited, s1)
      | (Outcome.faulted, s1) => (Handled.faulted, s1)
      | (Outcome.blocked, s1) => (Handled.blocked, s1)
    else modifyHandlerTail r id now ioModify s

/-- One row of the listing written by `indexHandler`: the record with the
class and the name and label of the second button. -/
structure Row where
  code : MessageCode
  cssClass : String
  deleteName : String
  deleteValue : String
deriving DecidableEq, Repr

/-- The body of the loop of `indexHandler` for a record. -/
def indexRow (code : MessageCode) : Row :=
  if code.Deleted then
    { code := code, cssClass := "deleted", deleteName := "undelete", deleteValue := "Undelete" }
  else
    { code := code, cssClass := "", deleteName := "delete", deleteValue := "Delete" }

/-- The loop `for i := 0; i < len(messageCodes); i++` of `indexHandler` with
`n` iterations left, at index `i`.  Reading a missing key yields nil and
`code.Deleted` panics: the result is then `none`. -/
def indexLoop (s : State) : Nat → Int → Option (List Row)
  | 0, _ => some []
  | n + 1, i =>
    match s.lookup i with
    | none => none
    | some code =>
      match indexLoop s n (i + 1) with
      | none => none
      | some rows => some (indexRow code :: rows)

/-- The rows `indexHandler` writes. -/
def indexHandler (s : State) : Option (List Row) :=
  indexLoop s s.messageCodes.length 0

/-- What `decoder.Decode(&messageCodes)` does with a decoded mapping: every
entry gets a newly allocated record, stored under its key. -/
def decodeInto (s : State) : List (Int × MessageCode) → State
  | [] => s
  | (k, r) :: rest =>
    decodeInto
      { s with heap := s.heap ++ [r], messageCodes := mapSet s.messageCodes k s.heap.length }
      rest

/-- What `os.Open(gobFilename)` returns at startup: the error `ENOENT`,
another error, or the file. -/
inductive Opened where
  | notExist
  | failed
  | file
deriving DecidableEq, Repr

/-- The process after the startup part of `main` (up to the call of
`http.ListenAndServeTLS`): the table, the paths for which a handler has been
registered, and the exit status if the process has terminated. -/
structure Startup where
  state : State
  handlers : List String
  exit : Option Nat
deriving DecidableEq, Repr

/-- The function `main` up to `http.ListenAndServeTLS`; `opened` is the
result of `os.Open` and `file` the contents of `codes.gob`. -/
def main (opened : Opened) (file : Disk) : Startup :=
  let s0 : State := { heap := [], messageCodes := [], file := file, modlock := false }
  match opened with
  | Opened.notExist => { state := s0, handlers := ["/", "/add", "/modify"], exit := none }
  | Opened.failed => { state := s0, handlers := [], exit := some 1 }
  | Opened.file =>
    match file with
    | Disk.snapshot t =>
      { state := decodeInto s0 t, handlers := ["/", "/add", "/modify"], exit := none }
    | _ => { state := s0, handlers := [], exit := some 1 }

/-- The request of a client at 10.0.0.3 that presses `Delete` on record 0
after clearing the title field. -/
def deleteWithoutTitle : Request :=
  { ip := ip_10_0_0_3, id := "0", title := "", description := "Request took too long",
    delete := "Delete", undelete := "" }

/-- The request of a client at 10.0.0.3 that presses `Undelete` on record 0
while the form also carries the delete field, with a new title. -/
def deleteAndUndelete : Request :=
  { ip := ip_10_0_0_3, id := "0", title := "Timeout Error",
    description := "Request took too long", delete := "Delete", undelete := "Undelete" }

/-! ## The map -/

theorem mapGet_mapSet_self (m : List (Int × Ptr)) (k : Int) (p : Ptr) :
    mapGet (mapSet m k p) k = some p := by
  induction m with
  | nil => simp [mapSet, mapGet]
  | cons e rest ih =>
    obtain ⟨k', p'⟩ := e
    by_cases hk : k' = k
    · simp [mapSet, mapGet, hk]
    · simp [mapSet, mapGet, hk, ih]

theorem mapGet_mapSet_ne (m : List (Int × Ptr)) (k k' : Int) (p : Ptr) (h : k' ≠ k) :
    mapGet (mapSet m k p) k' = mapGet m k' := by
  induction m with
  | nil => simp [mapSet, mapGet, h.symm]
  | cons e rest ih =>
    obtain ⟨k0, p0⟩ := e
    by_cases hk : k0 = k
    · subst hk
      simp [mapSet, mapGet, h.symm]
    · by_cases hk' : k0 = k'
      · subst hk'
        simp [mapSet, mapGet, hk]
      · simp [mapSet, mapGet, hk, hk', ih]

theorem mapSet_of_mapGet (m : List (Int × Ptr)) (k : Int) (p : Ptr)
    (h : mapGet m k = some p) : mapSet m k p = m := by
  induction m with
  | nil => simp [mapGet] at h
  | cons e rest ih =>
    obtain ⟨k0, p0⟩ := e
    by_cases hk : k0 = k
    · simp [mapGet, hk] at h
      simp [mapSet, hk, h]
    · simp [mapGet, hk] at h
      simp [mapSet, hk, ih h]

theorem mem_mapKeys_mapSet (m : List (Int × Ptr)) (k k' : Int) (p : Ptr) :
    k' ∈ mapKeys (mapSet m k p) ↔ k' = k ∨ k' ∈ mapKeys m := by
  induction m with
  | nil => simp [mapSet, mapKeys]
  | cons e rest ih =>
    obtain ⟨k0, p0⟩ := e
    by_cases hk : k0 = k
    · subst hk
      simp [mapSet, mapKeys]
    · have ih' : k' ∈ List.map Prod.fst (mapSet rest k p) ↔ k' = k ∨ k' ∈ List.map Prod.fst rest := ih
      simp only [mapSet, hk, if_false, mapKeys, List.map_cons, List.mem_cons, ih']
      tauto

theorem mem_mapKeys_iff (m : List (Int × Ptr)) (k : Int) :
    k ∈ mapKeys m ↔ ∃ p, mapGet m k = some p := by
  induction m with
  | nil => simp [mapKeys, mapGet]
  | cons e rest ih =>
    obtain ⟨k0, p0⟩ := e
    have ih' : k ∈ List.map Prod.fst rest ↔ ∃ p, mapGet rest k = some p := ih
    by_cases hk : k0 = k
    · simp [mapKeys, mapGet, hk]
    · have hk' : ¬ k = k0 := fun h => hk h.symm
      simp [mapKeys, mapGet, hk, hk', ih']

theorem mem_of_mapGet (m : List (Int × Ptr)) (k : Int) (p : Ptr)
    (h : mapGet m k = some p) : (k, p) ∈ m := by
  induction m with
  | nil => simp [mapGet] at h
  | cons e rest ih =>
    obtain ⟨k0, p0⟩ := e
    by_cases hk : k0 = k
    · simp [mapGet, hk] at h
      simp [hk, h]
    · simp [mapGet, hk] at h
      exact List.mem_cons_of_mem _ (ih h)

theorem mem_mapSet (m : List (Int × Ptr)) (k : Int) (p : Ptr) (e : Int × Ptr)
    (h : e ∈ mapSet m k p) : e = (k, p) ∨ e ∈ m := by
  induction m with
  | nil => simpa [mapSet] using h
  | cons e0 rest ih =>
    obtain ⟨k0, p0⟩ := e0
    by_cases hk : k0 = k
    · simp only [mapSet, hk, if_true, List.mem_cons] at h
      rcases h with h | h
      · exact Or.inl h
      · exact Or.inr (List.mem_cons_of_mem _ h)
    · simp only [mapSet, hk, if_false, List.mem_cons] at h
      rcases h with h | h
      · exact Or.inr (by simp [h])
      · rcases ih h with h1 | h1
        · exact Or.inl h1
        · exact Or.inr (List.mem_cons_of_mem _ h1)

theorem nodup_mapKeys_mapSet (m : List (Int × Ptr)) (k : Int) (p : Ptr)
    (h : (mapKeys m).Nodup) : (mapKeys (mapSet m k p)).Nodup := by
  induction m with
  | nil => simp [mapSet, mapKeys]
  | cons e rest ih =>
    obtain ⟨k0, p0⟩ := e
    have h' : k0 ∉ mapKeys rest ∧ (mapKeys rest).Nodup := by
      simpa [mapKeys] using h
    by_cases hk : k0 = k
    · subst hk
      simpa [mapSet, mapKeys] using h
    · have hmem : k0 ∉ mapKeys (mapSet rest k p) := by
        rw [mem_mapKeys_mapSet]
        rintro (h1 | h1)
        · exact hk h1
        · exact h'.1 h1
      have hnd := ih h'.2
      simp only [mapSet, hk, if_false]
      show (k0 :: mapKeys (mapSet rest k p)).Nodup
      exact List.nodup_cons.mpr ⟨hmem, hnd⟩

theorem length_mapSet_of_mem (m : List (Int × Ptr)) (k : Int) (p : Ptr)
    (h : k ∈ mapKeys m) : (mapSet m k p).length = m.length := by
  induction m with
  | nil => simp [mapKeys] at h
  | cons e rest ih =>
    obtain ⟨k0, p0⟩ := e
    by_cases hk : k0 = k
    · simp [mapSet, hk]
    · have h' : k ∈ mapKeys rest := by
        have : k = k0 ∨ k ∈ mapKeys rest := by simpa [mapKeys] using h
        rcases this with h1 | h1
        · exact absurd h1.symm hk
        · exact h1
      simp [mapSet, hk, ih h']

theorem length_mapSet_of_not_mem (m : List (Int × Ptr)) (k : Int) (p : Ptr)
    (h : k ∉ mapKeys m) : (mapSet m k p).length = m.length + 1 := by
  induction m with
  | nil => simp [mapSet]
  | cons e rest ih =>
    obtain ⟨k0, p0⟩ := e
    have h' : ¬ k = k0 ∧ k ∉ mapKeys rest := by simpa [mapKeys] using h
    have hk : ¬ k0 = k := fun h1 => h'.1 h1.symm
    simp [mapSet, hk, ih h'.2]

/-! ## The shared tail -/

@[simp] theorem persist_heap (c : Ptr) (io : Storage) (s : State) :
    (persist c io s).2.heap = s.heap := by
  cases io <;> rfl

@[simp] theorem persist_messageCodes (c : Ptr) (io : Storage) (s : State) :
    (persist c io s).2.messageCodes = s.messageCodes := by
  cases io <;> rfl

theorem persist_lookup (c : Ptr) (io : Storage) (s : State) (k : Int) :
    (persist c io s).2.lookup k = s.lookup k := by
  cases io <;> rfl

theorem persist_returned_some (c p : Ptr) (io : Storage) (s s1 : State)
    (h : persist c io s = (Outcome.returned (some p), s1)) :
    io = Storage.ok ∧ p = c ∧
      s1 = { s with file := Disk.snapshot (encodeTable s.heap s.messageCodes), modlock := false } := by
  cases io
  · simp [persist] at h
  · simp [persist] at h
  · simp only [persist, Prod.mk.injEq, Outcome.returned.injEq, Option.some.injEq] at h
    exact ⟨rfl, h.1.symm, h.2.symm⟩

theorem persist_returned (c : Ptr) (io : Storage) (s s1 : State) (q : Option Ptr)
    (h : persist c io s = (Outcome.returned q, s1)) :
    io ≠ Storage.encodeFails ∧ s1.modlock = false := by
  cases io
  · simp only [persist, Prod.mk.injEq] at h
    refine ⟨by simp, ?_⟩
    rw [← h.2]
  · simp [persist] at h
  · simp only [persist, Prod.mk.injEq] at h
    refine ⟨by simp, ?_⟩
    rw [← h.2]

/-! ## `addCode` -/

theorem addCode_free (title description : String) (ip : IP) (now : Time) (io : Storage)
    (s : State) (hfree : s.modlock = false) :
    addCode title description ip now io s =
      persist s.heap.length io
        { s with heap := s.heap ++ [newRecord s title description ip now]
                 messageCodes := mapSet s.messageCodes (mapLen s.messageCodes) s.heap.length
                 modlock := true } := by
  simp [addCode, hfree, newRecord]

theorem addCode_held (title description : String) (ip : IP) (now : Time) (io : Storage)
    (s : State) (hheld : s.modlock = true) :
    addCode title description ip now io s = (Outcome.blocked, s) := by
  simp [addCode, hheld]

theorem addCode_returned_free (title description : String) (ip : IP) (now : Time)
    (io : Storage) (s s1 : State) (q : Option Ptr)
    (h : addCode title description ip now io s = (Outcome.returned q, s1)) :
    s.modlock = false := by
  cases hm : s.modlock
  · rfl
  · rw [addCode_held _ _ _ _ _ _ hm] at h
    simp at h

theorem heap_append_of_valid (heap : List MessageCode) (r : MessageCode) (p : Ptr)
    (h : p < heap.length) : (heap ++ [r])[p]? = heap[p]? := by
  rw [List.getElem?_append_left h]

theorem lookup_addCode (title description : String) (ip : IP) (now : Time) (io : Storage)
    (s : State) (hwf : s.WF) (hfree : s.modlock = false) (k : Int) :
    (addCode title description ip now io s).2.lookup k =
      if k = mapLen s.messageCodes then some (newRecord s title description ip now)
      else s.lookup k := by
  rw [addCode_free _ _ _ _ _ _ hfree, persist_lookup]
  by_cases hk : k = mapLen s.messageCodes
  · subst hk
    simp [State.lookup, mapGet_mapSet_self]
  · simp only [State.lookup, hk, if_false, mapGet_mapSet_ne _ _ _ _ hk]
    cases hg : mapGet s.messageCodes k with
    | none => rfl
    | some p =>
      have hp : p < s.heap.length := hwf.1 (k, p) (mem_of_mapGet _ _ _ hg)
      simp [heap_append_of_valid _ _ _ hp]

/-- C2: a successful `addCode(title, description, ip)` at time `now` returns a
record with `Code` = size of the table before the call, `Deleted = false`, the
given title and description, `Created = Modified = now` and
`CreatedIp = ModifiedIp = ip`; the table afterwards maps that code to exactly
that record and agrees with the table before on every other key. -/
theorem addCode_spec (s s1 : State) (title description : String) (ip : IP) (now : Time)
    (io : Storage) (p : Ptr) (hwf : s.WF)
    (h : addCode title description ip now io s = (Outcome.returned (some p), s1)) :
    s1.deref p = some
        { Code := mapLen s.messageCodes, Deleted := false, Title := title,
          Description := description, Created := now, CreatedIp := ip,
          Modified := now, ModifiedIp := ip } ∧
      s1.lookup (mapLen s.messageCodes) = s1.deref p ∧
      ∀ k, k ≠ mapLen s.messageCodes → s1.lookup k = s.lookup k := by
  have hfree := addCode_returned_free _ _ _ _ _ _ _ _ h
  have hl := lookup_addCode title description ip now io s hwf hfree
  rw [h] at hl
  have h2 := h
  rw [addCode_free _ _ _ _ _ _ hfree] at h2
  obtain ⟨-, hp, hs1⟩ := persist_returned_some _ _ _ _ _ h2
  have hd : s1.deref p = some (newRecord s title description ip now) := by
    subst hp hs1
    simp [State.deref]
  refine ⟨hd, ?_, ?_⟩
  · rw [hd]
    simpa using hl (mapLen s.messageCodes)
  · intro k hk
    simpa [hk] using hl k

/-- C2 at the scenario of the specification: `Add("Timeout", "Request took too
long", 10.0.0.1)` on the empty table yields id 0. -/
theorem addCode_spec_witness :
    State.empty.WF ∧
      addCode "Timeout" "Request took too long" ip_10_0_0_1 1000 Storage.ok State.empty
        = (Outcome.returned (some 0), timeoutState) ∧
      timeoutState.deref 0 = some
          { Code := 0, Deleted := false, Title := "Timeout",
            Description := "Request took too long", Created := 1000, CreatedIp := ip_10_0_0_1,
            Modified := 1000, ModifiedIp := ip_10_0_0_1 } ∧
      timeoutState.lookup 0 = timeoutState.deref 0 :=
  ⟨by decide, by decide,
   (addCode_spec State.empty timeoutState "Timeout" "Request took too long" ip_10_0_0_1 1000
      Storage.ok 0 (by decide) (by decide)).1,
   (addCode_spec State.empty timeoutState "Timeout" "Request took too long" ip_10_0_0_1 1000
      Storage.ok 0 (by decide) (by decide)).2.1⟩

/-! ## `modifyCode` and `deleteCode` -/

theorem modifyCode_present (id : Int) (title description : String) (ip : IP) (now : Time)
    (io : Storage) (s : State) (q : Ptr) (r : MessageCode) (hfree : s.modlock = false)
    (hq : mapGet s.messageCodes id = some q) (hr : s.heap[q]? = some r) :
    modifyCode id title description ip now io s =
      persist q io
        { s with heap := s.heap.set q
                   { r with Title := title, Description := description,
                            Modified := now, ModifiedIp := ip }
                 messageCodes := mapSet s.messageCodes r.Code q
                 modlock := true } := by
  simp [modifyCode, hfree, hq, hr]

theorem deleteCode_present (id : Int) (deleted : Bool) (ip : IP) (io : Storage) (s : State)
    (q : Ptr) (r : MessageCode) (hfree : s.modlock = false)
    (hq : mapGet s.messageCodes id = some q) (hr : s.heap[q]? = some r) :
    deleteCode id deleted ip io s =
      persist q io
        { s with heap := s.heap.set q { r with Deleted := deleted }
                 messageCodes := mapSet s.messageCodes r.Code q
                 modlock := true } := by
  simp [deleteCode, hfree, hq, hr]

theorem modifyCode_returned_free (id : Int) (title description : String) (ip : IP)
    (now : Time) (io : Storage) (s s1 : State) (o : Option Ptr)
    (h : modifyCode id title description ip now io s = (Outcome.returned o, s1)) :
    s.modlock = false := by
  cases hm : s.modlock
  · rfl
  · simp [modifyCode, hm] at h

theorem deleteCode_returned_free (id : Int) (deleted : Bool) (ip : IP) (io : Storage)
    (s s1 : State) (o : Option Ptr)
    (h : deleteCode id deleted ip io s = (Outcome.returned o, s1)) :
    s.modlock = false := by
  cases hm : s.modlock
  · rfl
  · simp [deleteCode, hm] at h

theorem lookup_some (s : State) (k : Int) (r : MessageCode) (h : s.lookup k = some r) :
    ∃ q, mapGet s.messageCodes k = some q ∧ s.heap[q]? = some r := by
  unfold State.lookup at h
  cases hg : mapGet s.messageCodes k with
  | none => simp [hg] at h
  | some q => exact ⟨q, rfl, by simpa [hg] using h⟩

theorem lookup_of_ptr (s : State) (k : Int) (q : Ptr) (h : mapGet s.messageCodes k = some q) :
    s.lookup k = s.heap[q]? := by
  simp [State.lookup, h]

/-- Writing a record through a pointer and storing the pointer under the
record's own code, when the record is stored under that code and under no
other key: the entry of that key changes and nothing else does. -/
theorem lookup_update (s : State) (id : Int) (q : Ptr) (r r1 : MessageCode) (b : Bool)
    (hq : mapGet s.messageCodes id = some q) (hr : s.heap[q]? = some r)
    (hcode : r1.Code = id)
    (halias : ∀ k, mapGet s.messageCodes k = mapGet s.messageCodes id → k = id) (k : Int) :
    ({ s with heap := s.heap.set q r1
              messageCodes := mapSet s.messageCodes r1.Code q
              modlock := b } : State).lookup k =
      if k = id then some r1 else s.lookup k := by
  have hlt : q < s.heap.length := by
    rcases Nat.lt_or_ge q s.heap.length with h | h
    · exact h
    · rw [List.getElem?_eq_none h] at hr
      cases hr
  have hm : mapSet s.messageCodes r1.Code q = s.messageCodes := by
    rw [hcode]
    exact mapSet_of_mapGet _ _ _ hq
  by_cases hk : k = id
  · subst hk
    simp [State.lookup, hm, hq, hlt]
  · simp only [State.lookup, hm, hk, if_false]
    cases hg : mapGet s.messageCodes k with
    | none => rfl
    | some q' =>
      have hne : q ≠ q' := by
        intro hqq
        apply hk
        apply halias
        rw [hg, hq, hqq]
      simp [List.getElem?_set_ne hne]

theorem mapKeys_update (s : State) (id : Int) (q : Ptr) (r1 : MessageCode)
    (hq : mapGet s.messageCodes id = some q) (hcode : r1.Code = id) :
    mapSet s.messageCodes r1.Code q = s.messageCodes := by
  rw [hcode]
  exact mapSet_of_mapGet _ _ _ hq

/-- Outside the invariant the store-back line `messageCodes[code.Code] = code`
adds a key: on a table whose record under key 0 carries `Code = 5`, which
only a snapshot file not written by the program can hold, `modifyCode(0, ...)`
adds the key 5.  The key-set and other-keys parts of the specification of
`modifyCode` therefore need the record to be stored under its own code. -/
theorem modifyCode_stray_key :
    ¬ (∀ (s s1 : State) (id : Int) (title description : String) (ip : IP) (now : Time)
        (io : Storage) (p : Ptr) (r : MessageCode),
        s.WF → s.lookup id = some r →
        modifyCode id title description ip now io s = (Outcome.returned (some p), s1) →
        (∀ k, k ∈ mapKeys s1.messageCodes ↔ k ∈ mapKeys s.messageCodes) ∧
          ∀ k, k ≠ id → s1.lookup k = s.lookup k) := by
  intro hall
  have h := hall strayState (modifyCode 0 "b" "" ip_10_0_0_2 2 Storage.ok strayState).2 0
    "b" "" ip_10_0_0_2 2 Storage.ok 0 _ (by decide) rfl rfl
  have h5 := (h.1 5).mp (by decide)
  revert h5
  decide

/-- The frame of `modifyCode` on a record that carries `Code = id` and is
stored under no other key: the returned record, the entry of `id`, the key
set and the other keys. -/
theorem modifyCode_frame (s s1 : State) (id : Int) (title description : String) (ip : IP)
    (now : Time) (io : Storage) (p : Ptr) (r : MessageCode)
    (hr : s.lookup id = some r) (hcode : r.Code = id)
    (halias : ∀ k, mapGet s.messageCodes k = mapGet s.messageCodes id → k = id)
    (h : modifyCode id title description ip now io s = (Outcome.returned (some p), s1)) :
    s1.deref p = some
        { Code := r.Code, Deleted := r.Deleted, Title := title, Description := description,
          Created := r.Created, CreatedIp := r.CreatedIp, Modified := now, ModifiedIp := ip } ∧
      s1.lookup id = s1.deref p ∧
      (∀ k, k ∈ mapKeys s1.messageCodes ↔ k ∈ mapKeys s.messageCodes) ∧
      ∀ k, k ≠ id → s1.lookup k = s.lookup k := by
  have hfree := modifyCode_returned_free _ _ _ _ _ _ _ _ _ h
  obtain ⟨q, hq, hh⟩ := lookup_some _ _ _ hr
  rw [modifyCode_present id title description ip now io s q r hfree hq hh] at h
  obtain ⟨-, hp, hs1⟩ := persist_returned_some _ _ _ _ _ h
  have hlt : q < s.heap.length := by
    rcases Nat.lt_or_ge q s.heap.length with h1 | h1
    · exact h1
    · rw [List.getElem?_eq_none h1] at hh
      cases hh
  have hl := lookup_update s id q r
    { r with Title := title, Description := description, Modified := now, ModifiedIp := ip }
    true hq hh hcode halias
  have hd : s1.deref p = some
      { r with Title := title, Description := description, Modified := now, ModifiedIp := ip } := by
    subst hp hs1
    simp [State.deref, hlt]
  have hlk : ∀ k, s1.lookup k = if k = id then some
      { r with Title := title, Description := description, Modified := now, ModifiedIp := ip }
      else s.lookup k := by
    intro k
    rw [← hl k, hs1]
    rfl
  refine ⟨hd, ?_, ?_, ?_⟩
  · rw [hd, hlk id]
    simp
  · intro k
    rw [hs1]
    show k ∈ mapKeys (mapSet s.messageCodes r.Code q) ↔ _
    rw [mapKeys_update s id q r hq hcode]
  · intro k hk
    rw [hlk k]
    simp [hk]

theorem persist_returned_table (c : Ptr) (io : Storage) (s s1 : State) (o : Outcome)
    (h : persist c io s = (o, s1)) :
    s1.heap = s.heap ∧ s1.messageCodes = s.messageCodes ∧ ∀ k, s1.lookup k = s.lookup k := by
  have h2 : (persist c io s).2 = s1 := by rw [h]
  subst h2
  exact ⟨persist_heap _ _ _, persist_messageCodes _ _ _, persist_lookup _ _ _⟩

/-- The same for `deleteCode`: on a table whose record under key 0 carries
`Code = 5`, `deleteCode(0, true, ip)` adds the key 5. -/
theorem deleteCode_stray_key :
    ¬ (∀ (s s1 : State) (id : Int) (d : Bool) (ip : IP) (io : Storage) (o : Option Ptr)
        (r : MessageCode),
        s.WF → s.lookup id = some r →
        deleteCode id d ip io s = (Outcome.returned o, s1) →
        (∀ k, k ∈ mapKeys s1.messageCodes ↔ k ∈ mapKeys s.messageCodes) ∧
          ∀ k, k ≠ id → s1.lookup k = s.lookup k) := by
  intro hall
  have h := hall strayState (deleteCode 0 true ip_10_0_0_3 Storage.ok strayState).2 0
    true ip_10_0_0_3 Storage.ok (some 0) _ (by decide) rfl rfl
  have h5 := (h.1 5).mp (by decide)
  revert h5
  decide

/-- The frame of `deleteCode` on a record that carries `Code = id` and is
stored under no other key. -/
theorem deleteCode_frame (s s1 : State) (id : Int) (d : Bool) (ip : IP) (io : Storage)
    (o : Option Ptr) (r : MessageCode)
    (hr : s.lookup id = some r) (hcode : r.Code = id)
    (halias : ∀ k, mapGet s.messageCodes k = mapGet s.messageCodes id → k = id)
    (h : deleteCode id d ip io s = (Outcome.returned o, s1)) :
    (∃ r1, s1.lookup id = some r1 ∧ r1.Deleted = d ∧ r1.Code = r.Code ∧ r1.Title = r.Title ∧
        r1.Description = r.Description ∧ r1.Created = r.Created ∧
        r1.CreatedIp = r.CreatedIp) ∧
      (∀ k, k ∈ mapKeys s1.messageCodes ↔ k ∈ mapKeys s.messageCodes) ∧
      ∀ k, k ≠ id → s1.lookup k = s.lookup k := by
  have hfree := deleteCode_returned_free _ _ _ _ _ _ _ h
  obtain ⟨q, hq, hh⟩ := lookup_some _ _ _ hr
  rw [deleteCode_present id d ip io s q r hfree hq hh] at h
  obtain ⟨-, hm, hlk⟩ := persist_returned_table _ _ _ _ _ h
  have hl := lookup_update s id q r { r with Deleted := d } true hq hh hcode halias
  refine ⟨⟨{ r with Deleted := d }, ?_, rfl, rfl, rfl, rfl, rfl, rfl⟩, ?_, ?_⟩
  · rw [hlk id, hl id]
    simp
  · intro k
    rw [hm]
    show k ∈ mapKeys (mapSet s.messageCodes r.Code q) ↔ _
    rw [mapKeys_update s id q r hq hcode]
  · intro k hk
    rw [hlk k, hl k]
    simp [hk]

/-! ## The audit fields `Modified` and `ModifiedIp` -/

theorem mapGet_mapSet_same_ptr (m : List (Int × Ptr)) (id c : Int) (q : Ptr)
    (hq : mapGet m id = some q) : mapGet (mapSet m c q) id = some q := by
  by_cases hc : id = c
  · subst hc
    exact mapGet_mapSet_self _ _ _
  · rw [mapGet_mapSet_ne _ _ _ _ hc, hq]

theorem getElem?_set_self_of_some (heap : List MessageCode) (q : Ptr) (r r1 : MessageCode)
    (hr : heap[q]? = some r) : (heap.set q r1)[q]? = some r1 := by
  have hlt : q < heap.length := by
    rcases Nat.lt_or_ge q heap.length with h | h
    · exact h
    · rw [List.getElem?_eq_none h] at hr
      cases hr
  simp [hlt]

/-- On every table, a `modifyCode` that returns leaves under `id` the record
with the new title, description, `Modified` and `ModifiedIp`. -/
theorem modifyCode_lookup (s s1 : State) (id : Int) (title description : String) (ip : IP)
    (now : Time) (io : Storage) (o : Option Ptr) (r : MessageCode)
    (hr : s.lookup id = some r)
    (h : modifyCode id title description ip now io s = (Outcome.returned o, s1)) :
    s1.lookup id = some
      { r with Title := title, Description := description, Modified := now, ModifiedIp := ip } := by
  have hfree := modifyCode_returned_free _ _ _ _ _ _ _ _ _ h
  obtain ⟨q, hq, hh⟩ := lookup_some _ _ _ hr
  rw [modifyCode_present id title description ip now io s q r hfree hq hh] at h
  obtain ⟨-, -, hlk⟩ := persist_returned_table _ _ _ _ _ h
  rw [hlk id]
  simp only [State.lookup]
  rw [mapGet_mapSet_same_ptr _ _ _ _ hq]
  exact getElem?_set_self_of_some _ _ _ _ hh

/-- On every table, `deleteCode` called with the gate free leaves under `id`
the record with the new flag and every other field as before. -/
theorem deleteCode_lookup (s : State) (id : Int) (d : Bool) (ip : IP) (io : Storage)
    (r : MessageCode) (hfree : s.modlock = false) (hr : s.lookup id = some r) :
    (deleteCode id d ip io s).2.lookup id = some { r with Deleted := d } := by
  obtain ⟨q, hq, hh⟩ := lookup_some _ _ _ hr
  rw [deleteCode_present id d ip io s q r hfree hq hh, persist_lookup]
  simp only [State.lookup]
  rw [mapGet_mapSet_same_ptr _ _ _ _ hq]
  exact getElem?_set_self_of_some _ _ _ _ hh

/-- C5: the code at `SetDeleted(0, true, 10.0.0.3)` after the `Add` of the
specification made from 10.0.0.1 at time 1000.  The call succeeds and the
record keeps `Modified = 1000` and `ModifiedIp = 10.0.0.1`: `deleteCode`
neither reads the clock nor uses its address parameter. -/
theorem deleteCode_keeps_modified :
    (deleteCode 0 true ip_10_0_0_3 Storage.ok timeoutState).1 = Outcome.returned (some 0) ∧
      ((deleteCode 0 true ip_10_0_0_3 Storage.ok timeoutState).2).lookup 0 =
        some { Code := 0, Deleted := true, Title := "Timeout",
               Description := "Request took too long", Created := 1000,
               CreatedIp := ip_10_0_0_1, Modified := 1000, ModifiedIp := ip_10_0_0_1 } ∧
      ip_10_0_0_1 ≠ ip_10_0_0_3 := by
  decide

/-- C6: for every table, every id present in it, every boolean `d` and every
two addresses (and any outcome of the file system), `deleteCode(id, d, ip1)`
and `deleteCode(id, d, ip2)` produce the same table, and in it the record's
`Modified` and `ModifiedIp` equal their values before the call. -/
theorem deleteCode_silent (s : State) (id : Int) (d : Bool) (ip1 ip2 : IP)
    (io1 io2 : Storage) (r : MessageCode) (hr : s.lookup id = some r) :
    (deleteCode id d ip1 io1 s).2.heap = (deleteCode id d ip2 io2 s).2.heap ∧
      (deleteCode id d ip1 io1 s).2.messageCodes = (deleteCode id d ip2 io2 s).2.messageCodes ∧
      deleteCode id d ip1 io1 s = deleteCode id d ip2 io1 s ∧
      ∃ r1, (deleteCode id d ip1 io1 s).2.lookup id = some r1 ∧
        r1.Modified = r.Modified ∧ r1.ModifiedIp = r.ModifiedIp := by
  obtain ⟨q, hq, hh⟩ := lookup_some _ _ _ hr
  cases hm : s.modlock with
  | true =>
    refine ⟨by simp [deleteCode, hm], by simp [deleteCode, hm], rfl, r, ?_, rfl, rfl⟩
    simp [deleteCode, hm, hr]
  | false =>
    refine ⟨?_, ?_, rfl, { r with Deleted := d }, deleteCode_lookup s id d ip1 io1 r hm hr,
      rfl, rfl⟩
    · rw [deleteCode_present id d ip1 io1 s q r hm hq hh,
        deleteCode_present id d ip2 io2 s q r hm hq hh, persist_heap, persist_heap]
    · rw [deleteCode_present id d ip1 io1 s q r hm hq hh,
        deleteCode_present id d ip2 io2 s q r hm hq hh, persist_messageCodes,
        persist_messageCodes]

/-- C6 at the scenario of the specification: `Modify(0, "Timeout Error",
"Request took too long", 10.0.0.2)` followed by `SetDeleted(0, true,
10.0.0.3)` leaves `modifiedBy = 10.0.0.2`. -/
theorem deleteCode_silent_witness :
    (modifyCode 0 "Timeout Error" "Request took too long" ip_10_0_0_2 2000 Storage.ok
        timeoutState).2 = timeoutErrorState ∧
      ∃ r1, (deleteCode 0 true ip_10_0_0_3 Storage.ok timeoutErrorState).2.lookup 0 = some r1 ∧
        r1.Modified = 2000 ∧ r1.ModifiedIp = ip_10_0_0_2 :=
  ⟨by decide,
   (deleteCode_silent timeoutErrorState 0 true ip_10_0_0_3 ip_10_0_0_1 Storage.ok
      Storage.createFails _ rfl).2.2.2⟩

/-! ## The shape of one call and the table invariant -/

theorem lookup_congr (s s1 : State) (h1 : s1.heap = s.heap)
    (h2 : s1.messageCodes = s.messageCodes) (k : Int) : s1.lookup k = s.lookup k := by
  simp [State.lookup, h1, h2]

theorem addCode_shape (title description : String) (ip : IP) (now : Time) (io : Storage)
    (s : State) : TableStep s (addCode title description ip now io s).2 := by
  cases hm : s.modlock with
  | true =>
    rw [addCode_held _ _ _ _ _ _ hm]
    exact Or.inl ⟨rfl, rfl⟩
  | false =>
    rw [addCode_free _ _ _ _ _ _ hm]
    refine Or.inr (Or.inl ⟨newRecord s title description ip now, rfl, ?_, ?_⟩)
    · rw [persist_heap]
    · rw [persist_messageCodes]

theorem modifyCode_shape (id : Int) (title description : String) (ip : IP) (now : Time)
    (io : Storage) (s : State) : TableStep s (modifyCode id title description ip now io s).2 := by
  cases hm : s.modlock with
  | true => exact Or.inl (by simp [modifyCode, hm])
  | false =>
    cases hq : mapGet s.messageCodes id with
    | none => exact Or.inl (by simp [modifyCode, hm, hq])
    | some q =>
      cases hr : s.heap[q]? with
      | none => exact Or.inl (by simp [modifyCode, hm, hq, hr])
      | some r =>
        rw [modifyCode_present id title description ip now io s q r hm hq hr]
        refine Or.inr (Or.inr ⟨id, q, r,
          { r with Title := title, Description := description, Modified := now,
                   ModifiedIp := ip }, hq, hr, rfl, rfl, rfl, ?_, ?_⟩)
        · rw [persist_heap]
        · rw [persist_messageCodes]

theorem deleteCode_shape (id : Int) (d : Bool) (ip : IP) (io : Storage) (s : State) :
    TableStep s (deleteCode id d ip io s).2 := by
  cases hm : s.modlock with
  | true => exact Or.inl (by simp [deleteCode, hm])
  | false =>
    cases hq : mapGet s.messageCodes id with
    | none => exact Or.inl (by simp [deleteCode, hm, hq])
    | some q =>
      cases hr : s.heap[q]? with
      | none => exact Or.inl (by simp [deleteCode, hm, hq, hr])
      | some r =>
        rw [deleteCode_present id d ip io s q r hm hq hr]
        refine Or.inr (Or.inr ⟨id, q, r, { r with Deleted := d }, hq, hr, rfl, rfl, rfl,
          ?_, ?_⟩)
        · rw [persist_heap]
        · rw [persist_messageCodes]

theorem step_shape (c : Call) (s : State) : TableStep s (step c s).2 := by
  cases c with
  | add t d ip now io => exact addCode_shape t d ip now io s
  | modify id t d ip now io => exact modifyCode_shape id t d ip now io s
  | delete id del ip io => exact deleteCode_shape id del ip io s

/-- No call moves a record, changes its `Code`, or changes its `Created` or
`CreatedIp`. -/
theorem tableStep_heap (s s1 : State) (h : TableStep s s1) (p : Ptr) (r : MessageCode)
    (hr : s.heap[p]? = some r) :
    ∃ r1, s1.heap[p]? = some r1 ∧ r1.Code = r.Code ∧ r1.Created = r.Created ∧
      r1.CreatedIp = r.CreatedIp := by
  have hlt : p < s.heap.length := by
    rcases Nat.lt_or_ge p s.heap.length with h1 | h1
    · exact h1
    · rw [List.getElem?_eq_none h1] at hr
      cases hr
  rcases h with ⟨hh, -⟩ | ⟨r0, -, hh, -⟩ | ⟨id, q, r0, r1, -, hq, hc, hcr, hci, hh, -⟩
  · exact ⟨r, by rw [hh, hr], rfl, rfl, rfl⟩
  · exact ⟨r, by rw [hh, heap_append_of_valid _ _ _ hlt, hr], rfl, rfl, rfl⟩
  · by_cases hpq : q = p
    · subst hpq
      rw [hq] at hr
      cases hr
      exact ⟨r1, by rw [hh]; simp [hlt], hc, hcr, hci⟩
    · exact ⟨r, by rw [hh, List.getElem?_set_ne hpq, hr], rfl, rfl, rfl⟩

theorem inv_no_alias (s : State) (hinv : s.Inv) (id : Int) (q : Ptr) (r : MessageCode)
    (hq : mapGet s.messageCodes id = some q) (hr : s.heap[q]? = some r) :
    r.Code = id ∧ ∀ k, mapGet s.messageCodes k = mapGet s.messageCodes id → k = id := by
  have h1 : r.Code = id := hinv.2.2 id r (by rw [lookup_of_ptr _ _ _ hq, hr])
  refine ⟨h1, ?_⟩
  intro k hk
  rw [hq] at hk
  have h2 : r.Code = k := hinv.2.2 k r (by rw [lookup_of_ptr _ _ _ hk, hr])
  rw [← h2, h1]

theorem tableStep_inv (s s1 : State) (h : TableStep s s1) (hinv : s.Inv) : s1.Inv := by
  obtain ⟨⟨hvalid, hnodup⟩, hdense, hkeyed⟩ := hinv
  rcases h with ⟨hh, hm⟩ | ⟨r0, hc0, hh, hm⟩ | ⟨id, q, r0, r1, hq, hr, hc, -, -, hh, hm⟩
  · refine ⟨⟨?_, ?_⟩, ?_, ?_⟩
    · rw [hh, hm]; exact hvalid
    · rw [hm]; exact hnodup
    · rw [hm]; exact hdense
    · intro k r hk
      rw [lookup_congr s s1 hh hm] at hk
      exact hkeyed k r hk
  · have hnot : mapLen s.messageCodes ∉ mapKeys s.messageCodes := by
      intro hmem
      have := ((hdense _).mp hmem).2
      omega
    have hlen : mapLen s1.messageCodes = mapLen s.messageCodes + 1 := by
      have hl := length_mapSet_of_not_mem s.messageCodes (mapLen s.messageCodes)
        s.heap.length hnot
      rw [hm]
      simp only [mapLen, hl] at hl ⊢
      push_cast
      rfl
    have hlk : ∀ k, s1.lookup k =
        if k = mapLen s.messageCodes then some r0 else s.lookup k := by
      intro k
      by_cases hk : k = mapLen s.messageCodes
      · subst hk
        simp [State.lookup, hm, hh, mapGet_mapSet_self]
      · simp only [State.lookup, hm, hh, hk, if_false, mapGet_mapSet_ne _ _ _ _ hk]
        cases hg : mapGet s.messageCodes k with
        | none => rfl
        | some p =>
          have hp : p < s.heap.length := hvalid (k, p) (mem_of_mapGet _ _ _ hg)
          simp [heap_append_of_valid _ _ _ hp]
    refine ⟨⟨?_, ?_⟩, ?_, ?_⟩
    · intro kp hkp
      rw [hm] at hkp
      rw [hh, List.length_append]
      rcases mem_mapSet _ _ _ _ hkp with h1 | h1
      · rw [h1]
        simp
      · have hlt : kp.2 < s.heap.length := hvalid kp h1
        exact Nat.lt_of_lt_of_le hlt (Nat.le_add_right _ _)
    · rw [hm]
      exact nodup_mapKeys_mapSet _ _ _ hnodup
    · intro k
      rw [hlen, hm, mem_mapKeys_mapSet, hdense k]
      have hnn : (0 : Int) ≤ mapLen s.messageCodes := by
        unfold mapLen
        exact Int.natCast_nonneg _
      constructor
      · rintro (h1 | h1)
        · omega
        · omega
      · intro h1
        by_cases h2 : k = mapLen s.messageCodes
        · exact Or.inl h2
        · exact Or.inr (by omega)
    · intro k r hk
      rw [hlk k] at hk
      by_cases h2 : k = mapLen s.messageCodes
      · rw [if_pos h2] at hk
        cases hk
        rw [hc0, h2]
      · rw [if_neg h2] at hk
        exact hkeyed k r hk
  · obtain ⟨hcode, halias⟩ := inv_no_alias s ⟨⟨hvalid, hnodup⟩, hdense, hkeyed⟩ id q r0 hq hr
    have hm' : s1.messageCodes = s.messageCodes := by
      rw [hm, hcode]
      exact mapSet_of_mapGet _ _ _ hq
    have hlk : ∀ k, s1.lookup k = if k = id then some r1 else s.lookup k := by
      intro k
      rw [← lookup_update s id q r0 r1 s.modlock hq hr (by rw [hc, hcode]) halias k]
      apply lookup_congr
      · rw [hh]
      · rw [hm, hc]
    refine ⟨⟨?_, ?_⟩, ?_, ?_⟩
    · rw [hh, hm', List.length_set]
      exact hvalid
    · rw [hm']; exact hnodup
    · rw [hm']; exact hdense
    · intro k r hk
      rw [hlk k] at hk
      by_cases h2 : k = id
      · rw [if_pos h2] at hk
        cases hk
        rw [hc, hcode, h2]
      · rw [if_neg h2] at hk
        exact hkeyed k r hk

theorem inv_empty : State.empty.Inv := by
  refine ⟨by decide, ?_, ?_⟩
  · intro k
    simp [State.empty, mapKeys, mapLen]
  · intro k r h
    simp [State.empty, State.lookup, mapGet] at h

theorem tableStep_wf (s s1 : State) (h : TableStep s s1) (hwf : s.WF) : s1.WF := by
  obtain ⟨hvalid, hnodup⟩ := hwf
  rcases h with ⟨hh, hm⟩ | ⟨r0, -, hh, hm⟩ | ⟨id, q, r0, r1, -, hr, -, -, -, hh, hm⟩
  · exact ⟨by rw [hh, hm]; exact hvalid, by rw [hm]; exact hnodup⟩
  · refine ⟨?_, by rw [hm]; exact nodup_mapKeys_mapSet _ _ _ hnodup⟩
    intro kp hkp
    rw [hm] at hkp
    rw [hh, List.length_append]
    rcases mem_mapSet _ _ _ _ hkp with h1 | h1
    · rw [h1]
      simp
    · exact Nat.lt_of_lt_of_le (hvalid kp h1) (Nat.le_add_right _ _)
  · have hlt : q < s.heap.length := by
      rcases Nat.lt_or_ge q s.heap.length with h1 | h1
      · exact h1
      · rw [List.getElem?_eq_none h1] at hr
        cases hr
    refine ⟨?_, by rw [hm]; exact nodup_mapKeys_mapSet _ _ _ hnodup⟩
    intro kp hkp
    rw [hm] at hkp
    rw [hh, List.length_set]
    rcases mem_mapSet _ _ _ _ hkp with h1 | h1
    · rw [h1]
      exact hlt
    · exact hvalid kp h1

/-- Under the invariant no call changes the pointer stored under an existing
key. -/
theorem tableStep_mapGet (s s1 : State) (h : TableStep s s1) (hinv : s.Inv) (k : Int)
    (q : Ptr) (hk : mapGet s.messageCodes k = some q) : mapGet s1.messageCodes k = some q := by
  rcases h with ⟨-, hm⟩ | ⟨r0, -, -, hm⟩ | ⟨id, q0, r0, r1, hq, hr, -, -, -, -, hm⟩
  · rw [hm, hk]
  · have hmem : k ∈ mapKeys s.messageCodes := (mem_mapKeys_iff _ _).mpr ⟨q, hk⟩
    have hlt := ((hinv.2.1 k).mp hmem).2
    have hne : k ≠ mapLen s.messageCodes := by omega
    rw [hm, mapGet_mapSet_ne _ _ _ _ hne, hk]
  · obtain ⟨hcode, -⟩ := inv_no_alias s hinv id q0 r0 hq hr
    rw [hm, hcode, mapSet_of_mapGet _ _ _ hq, hk]

theorem step_returned (c : Call) (s s1 : State) (o : Option Ptr)
    (h : step c s = (Outcome.returned o, s1)) :
    s.modlock = false ∧ ∃ q io mid, persist q io mid = (Outcome.returned o, s1) := by
  cases hm : s.modlock with
  | true =>
    cases c <;> simp [step, addCode, modifyCode, deleteCode, hm] at h
  | false =>
    refine ⟨rfl, ?_⟩
    cases c with
    | add t d ip now io =>
      simp only [step] at h
      rw [addCode_free _ _ _ _ _ _ hm] at h
      exact ⟨_, _, _, h⟩
    | modify id t d ip now io =>
      simp only [step] at h
      cases hq : mapGet s.messageCodes id with
      | none => simp [modifyCode, hm, hq] at h
      | some q =>
        cases hr : s.heap[q]? with
        | none => simp [modifyCode, hm, hq, hr] at h
        | some r =>
          rw [modifyCode_present id t d ip now io s q r hm hq hr] at h
          exact ⟨_, _, _, h⟩
    | delete id del ip io =>
      simp only [step] at h
      cases hq : mapGet s.messageCodes id with
      | none => simp [deleteCode, hm, hq] at h
      | some q =>
        cases hr : s.heap[q]? with
        | none => simp [deleteCode, hm, hq, hr] at h
        | some r =>
          rw [deleteCode_present id del ip io s q r hm hq hr] at h
          exact ⟨_, _, _, h⟩

/-! ## Sequences of calls -/

theorem run_cons (c : Call) (cs : List Call) (s s2 : State) (ps : List (Option Ptr))
    (h : run (c :: cs) s = some (ps, s2)) :
    ∃ o s1 ps1, step c s = (Outcome.returned o, s1) ∧ run cs s1 = some (ps1, s2) ∧
      ps = o :: ps1 := by
  simp only [run] at h
  cases hs : step c s with
  | mk out s1 =>
    rw [hs] at h
    cases out with
    | returned o =>
      simp only at h
      cases hr : run cs s1 with
      | none => simp [hr] at h
      | some res =>
        obtain ⟨ps1, s2'⟩ := res
        simp only [hr, Option.some.injEq, Prod.mk.injEq] at h
        exact ⟨o, s1, ps1, rfl, by rw [hr, h.2], h.1.symm⟩
    | exited => simp at h
    | faulted => simp at h
    | blocked => simp at h

theorem run_inv (cs : List Call) (s s2 : State) (ps : List (Option Ptr)) (hinv : s.Inv)
    (h : run cs s = some (ps, s2)) : s2.Inv := by
  induction cs generalizing s ps with
  | nil =>
    simp only [run, Option.some.injEq, Prod.mk.injEq] at h
    rw [← h.2]
    exact hinv
  | cons c cs ih =>
    obtain ⟨o, s1, ps1, hs, hr, -⟩ := run_cons c cs s s2 ps h
    have hsh := step_shape c s
    rw [hs] at hsh
    exact ih s1 ps1 (tableStep_inv s s1 hsh hinv) hr

theorem run_heap (cs : List Call) (s s2 : State) (ps : List (Option Ptr))
    (h : run cs s = some (ps, s2)) (p : Ptr) (r : MessageCode) (hr : s.heap[p]? = some r) :
    ∃ r1, s2.heap[p]? = some r1 ∧ r1.Code = r.Code ∧ r1.Created = r.Created ∧
      r1.CreatedIp = r.CreatedIp := by
  induction cs generalizing s ps r with
  | nil =>
    simp only [run, Option.some.injEq, Prod.mk.injEq] at h
    rw [← h.2]
    exact ⟨r, hr, rfl, rfl, rfl⟩
  | cons c cs ih =>
    obtain ⟨o, s1, ps1, hs, hrun, -⟩ := run_cons c cs s s2 ps h
    have hsh := step_shape c s
    rw [hs] at hsh
    obtain ⟨r1, h1, hc, hcr, hci⟩ := tableStep_heap s s1 hsh p r hr
    obtain ⟨r2, h2, hc2, hcr2, hci2⟩ := ih s1 ps1 hrun r1 h1
    exact ⟨r2, h2, by rw [hc2, hc], by rw [hcr2, hcr], by rw [hci2, hci]⟩

theorem run_mapGet (cs : List Call) (s s2 : State) (ps : List (Option Ptr)) (hinv : s.Inv)
    (h : run cs s = some (ps, s2)) (k : Int) (q : Ptr)
    (hk : mapGet s.messageCodes k = some q) : mapGet s2.messageCodes k = some q := by
  induction cs generalizing s ps with
  | nil =>
    simp only [run, Option.some.injEq, Prod.mk.injEq] at h
    rw [← h.2]
    exact hk
  | cons c cs ih =>
    obtain ⟨o, s1, ps1, hs, hrun, -⟩ := run_cons c cs s s2 ps h
    have hsh := step_shape c s
    rw [hs] at hsh
    exact ih s1 ps1 (tableStep_inv s s1 hsh hinv) hrun (tableStep_mapGet s s1 hsh hinv k q hk)

/-! ## Ids handed out by `addCode` -/

theorem addCode_returned (title description : String) (ip : IP) (now : Time) (io : Storage)
    (s s1 : State) (o : Option Ptr)
    (h : addCode title description ip now io s = (Outcome.returned o, s1)) :
    s1.heap = s.heap ++ [newRecord s title description ip now] ∧
      s1.messageCodes = mapSet s.messageCodes (mapLen s.messageCodes) s.heap.length ∧
      ∀ p, o = some p → p = s.heap.length := by
  have hfree := addCode_returned_free _ _ _ _ _ _ _ _ h
  rw [addCode_free _ _ _ _ _ _ hfree] at h
  obtain ⟨hh, hm, -⟩ := persist_returned_table _ _ _ _ _ h
  refine ⟨hh, hm, ?_⟩
  intro p hp
  subst hp
  exact (persist_returned_some _ _ _ _ _ h).2.1

theorem inv_len_not_mem (s : State) (hinv : s.Inv) :
    mapLen s.messageCodes ∉ mapKeys s.messageCodes := by
  intro hmem
  have := ((hinv.2.1 _).mp hmem).2
  omega

theorem mapLen_mapSet_new (m : List (Int × Ptr)) (k : Int) (p : Ptr) (h : k ∉ mapKeys m) :
    mapLen (mapSet m k p) = mapLen m + 1 := by
  unfold mapLen
  rw [length_mapSet_of_not_mem _ _ _ h]
  push_cast
  rfl

theorem run_add_codes (cs : List Call) (s s2 : State) (ps : List (Option Ptr))
    (hinv : s.Inv) (hadd : ∀ c ∈ cs, c.isAdd = true) (h : run cs s = some (ps, s2))
    (n : Nat) (p : Ptr) (hp : ps[n]? = some (some p)) :
    ∃ r, s2.deref p = some r ∧ r.Code = mapLen s.messageCodes + n := by
  induction cs generalizing s ps n with
  | nil =>
    simp only [run, Option.some.injEq, Prod.mk.injEq] at h
    rw [← h.1] at hp
    simp at hp
  | cons c cs ih =>
    obtain ⟨o, s1, ps1, hs, hrun, hps⟩ := run_cons c cs s s2 ps h
    have hsh := step_shape c s
    rw [hs] at hsh
    have hinv1 := tableStep_inv s s1 hsh hinv
    have hc : c.isAdd = true := hadd c (List.mem_cons_self _ _)
    cases c with
    | add t d ip now io =>
      simp only [step] at hs
      obtain ⟨hh, hm, hptr⟩ := addCode_returned _ _ _ _ _ _ _ _ hs
      cases n with
      | zero =>
        rw [hps] at hp
        simp only [List.getElem?_cons_zero, Option.some.injEq] at hp
        have hpe := hptr p hp
        have h1 : s1.heap[p]? = some (newRecord s t d ip now) := by
          rw [hh, hpe]
          simp
        obtain ⟨r1, hr1, hcode, -, -⟩ := run_heap cs s1 s2 ps1 hrun p _ h1
        refine ⟨r1, hr1, ?_⟩
        rw [hcode]
        simp [newRecord]
      | succ n =>
        rw [hps] at hp
        simp only [List.getElem?_cons_succ] at hp
        obtain ⟨r, hr, hcode⟩ := ih s1 ps1 hinv1
          (fun c hc => hadd c (List.mem_cons_of_mem _ hc)) hrun n hp
        refine ⟨r, hr, ?_⟩
        rw [hcode, hm, mapLen_mapSet_new _ _ _ (inv_len_not_mem s hinv)]
        push_cast
        omega
    | modify id t d ip now io => simp [Call.isAdd] at hc
    | delete id del ip io => simp [Call.isAdd] at hc

/-- C1 as stated fails: when the first `addCode` fails at opening the snapshot
file and the second succeeds, the first successful call returns the record
with `Code = 1`, not 0. -/
theorem addCode_nth_success_counterexample :
    ¬ (∀ (cs : List Call) (ps : List (Option Ptr)) (s : State),
        (∀ c ∈ cs, c.isAdd = true) → run cs State.empty = some (ps, s) →
        ∀ (n : Nat) (p : Ptr), (ps.filterMap id)[n]? = some p →
          ∃ r, s.deref p = some r ∧ r.Code = n) := by
  intro hall
  obtain ⟨r, hr, hcode⟩ := hall
    [Call.add "a" "" ip_10_0_0_1 1 Storage.createFails, Call.add "b" "" ip_10_0_0_1 2 Storage.ok]
    _ _ (by decide) rfl 0 1 rfl
  have hr1 : r.Code = 1 := by
    simp [State.deref] at hr
    rw [← hr]
    rfl
  rw [hr1] at hcode
  exact absurd hcode (by decide)

/-- C1 (amended): starting from the empty table, for every finite sequence of
`addCode` calls, each of which returns a record or fails at opening the
snapshot file and returns nil, the record returned by the N-th call of the
sequence, when that call succeeds, has `Code = N - 1`; calls that failed are
counted, since a failed call has inserted its record too. -/
theorem addCode_nth_call (cs : List Call) (ps : List (Option Ptr)) (s : State)
    (hadd : ∀ c ∈ cs, c.isAdd = true) (h : run cs State.empty = some (ps, s))
    (n : Nat) (p : Ptr) (hp : ps[n]? = some (some p)) :
    ∃ r, s.deref p = some r ∧ r.Code = n := by
  obtain ⟨r, hr, hcode⟩ := run_add_codes cs State.empty s ps inv_empty hadd h n p hp
  refine ⟨r, hr, ?_⟩
  rw [hcode]
  simp [State.empty, mapLen]

/-- C1 (amended) on three calls of which the second fails at opening the
snapshot file: the third call returns the record with `Code = 2`. -/
theorem addCode_nth_call_witness :
    (∀ c ∈ threeAdds, c.isAdd = true) ∧
      run threeAdds State.empty = some ([some 0, none, some 2], threeAddsState) ∧
      ∃ r, threeAddsState.deref 2 = some r ∧ r.Code = ((2 : Nat) : Int) :=
  ⟨by decide, by decide,
   addCode_nth_call threeAdds [some 0, none, some 2] threeAddsState (by decide) (by decide)
     2 2 rfl⟩

/-! ## `Created` and `CreatedIp` -/

/-- C7: for every record created by `addCode` (at time `now`, from address
`ip`) and every finite sequence of subsequent `addCode`, `modifyCode` and
`deleteCode` calls that return (with a record, or with nil after failing at
storage-open), the record still has `Created = now` and `CreatedIp = ip` (and
its `Code`) in the final state; and when the call was made in a state
satisfying the registry invariant, as every state reached from the empty table
does, the final table still stores that record under its code. -/
theorem created_immutable (s s1 s2 : State) (title description : String) (ip : IP)
    (now : Time) (io : Storage) (o : Option Ptr) (post : List Call) (ps : List (Option Ptr))
    (hadd : addCode title description ip now io s = (Outcome.returned o, s1))
    (hrun : run post s1 = some (ps, s2)) :
    (∃ r, s2.deref s.heap.length = some r ∧ r.Created = now ∧ r.CreatedIp = ip ∧
        r.Code = mapLen s.messageCodes) ∧
      (s.Inv → s2.lookup (mapLen s.messageCodes) = s2.deref s.heap.length) := by
  obtain ⟨hh, hm, -⟩ := addCode_returned _ _ _ _ _ _ _ _ hadd
  have h1 : s1.heap[s.heap.length]? = some (newRecord s title description ip now) := by
    rw [hh]
    simp
  obtain ⟨r, hr, hc, hcr, hci⟩ := run_heap post s1 s2 ps hrun _ _ h1
  refine ⟨⟨r, hr, hcr, hci, hc⟩, ?_⟩
  intro hinv
  have hsh := addCode_shape title description ip now io s
  rw [hadd] at hsh
  have hinv1 := tableStep_inv s s1 hsh hinv
  have hg : mapGet s1.messageCodes (mapLen s.messageCodes) = some s.heap.length := by
    rw [hm]
    exact mapGet_mapSet_self _ _ _
  have hg2 := run_mapGet post s1 s2 ps hinv1 hrun _ _ hg
  rw [lookup_of_ptr _ _ _ hg2]
  rfl

/-- C7 on the record of the specification's scenario followed by
`laterCalls`. -/
theorem created_immutable_witness :
    addCode "Timeout" "Request took too long" ip_10_0_0_1 1000 Storage.ok State.empty
        = (Outcome.returned (some 0), timeoutState) ∧
      (run laterCalls timeoutState).isSome = true ∧
      ∀ ps s2, run laterCalls timeoutState = some (ps, s2) →
        (∃ r, s2.deref 0 = some r ∧ r.Created = 1000 ∧ r.CreatedIp = ip_10_0_0_1 ∧
          r.Code = 0) ∧ s2.lookup 0 = s2.deref 0 :=
  ⟨by decide, by decide, fun ps s2 hrun =>
    ⟨(created_immutable State.empty timeoutState s2 "Timeout" "Request took too long"
        ip_10_0_0_1 1000 Storage.ok (some 0) laterCalls ps (by decide) hrun).1,
     (created_immutable State.empty timeoutState s2 "Timeout" "Request took too long"
        ip_10_0_0_1 1000 Storage.ok (some 0) laterCalls ps (by decide) hrun).2 inv_empty⟩⟩

/-! ## Ids -/

/-- C8: in every state reached from the empty table by `addCode`,
`modifyCode` and `deleteCode` calls that return (calls on existing ids,
successful or failing at storage-open), the keys of the table are exactly
`0, ..., N - 1` for `N` the table size, each once; every key holds a record,
whose `Code` is that key; and no call changes the `Code` of a stored record or
removes a key. -/
theorem reachable_ids (cs : List Call) (ps : List (Option Ptr)) (s : State)
    (h : run cs State.empty = some (ps, s)) :
    (∀ k, k ∈ mapKeys s.messageCodes ↔ 0 ≤ k ∧ k < mapLen s.messageCodes) ∧
      (mapKeys s.messageCodes).Nodup ∧
      (∀ k, k ∈ mapKeys s.messageCodes → ∃ r, s.lookup k = some r) ∧
      (∀ k r, s.lookup k = some r → r.Code = k) ∧
      ∀ (c : Call) (k : Int) (r : MessageCode), s.lookup k = some r →
        ∃ r1, (step c s).2.lookup k = some r1 ∧ r1.Code = r.Code := by
  have hinv := run_inv cs State.empty s ps inv_empty h
  refine ⟨hinv.2.1, hinv.1.2, ?_, hinv.2.2, ?_⟩
  · intro k hk
    obtain ⟨q, hq⟩ := (mem_mapKeys_iff _ _).mp hk
    have hlt : q < s.heap.length := hinv.1.1 (k, q) (mem_of_mapGet _ _ _ hq)
    refine ⟨s.heap[q], ?_⟩
    rw [lookup_of_ptr _ _ _ hq]
    exact List.getElem?_eq_getElem hlt
  · intro c k r hr
    obtain ⟨q, hq, hh⟩ := lookup_some _ _ _ hr
    have hsh := step_shape c s
    obtain ⟨r1, hr1, hc, -, -⟩ := tableStep_heap s _ hsh q r hh
    refine ⟨r1, ?_, hc⟩
    rw [lookup_of_ptr _ _ _ (tableStep_mapGet s _ hsh hinv k q hq)]
    exact hr1

/-- C8 on the calls of `threeAdds`: the keys are 0, 1, 2. -/
theorem reachable_ids_witness :
    run threeAdds State.empty = some ([some 0, none, some 2], threeAddsState) ∧
      mapKeys threeAddsState.messageCodes = [0, 1, 2] ∧
      mapLen threeAddsState.messageCodes = 3 ∧
      ∀ k, k ∈ mapKeys threeAddsState.messageCodes ↔
        0 ≤ k ∧ k < mapLen threeAddsState.messageCodes :=
  ⟨by decide, by decide, by decide,
   (reachable_ids threeAdds [some 0, none, some 2] threeAddsState (by decide)).1⟩

/-! ## The snapshot file -/

theorem snapGet_encodeTable (heap : List MessageCode) (m : List (Int × Ptr))
    (hvalid : ∀ kp ∈ m, kp.2 < heap.length) (k : Int) :
    snapGet (encodeTable heap m) k =
      match mapGet m k with
      | none => none
      | some p => heap[p]? := by
  induction m with
  | nil => simp [encodeTable, snapGet, mapGet]
  | cons e rest ih =>
    obtain ⟨k0, p0⟩ := e
    have hp0 : p0 < heap.length := hvalid (k0, p0) (List.mem_cons_self _ _)
    have ih' := ih (fun kp hkp => hvalid kp (List.mem_cons_of_mem _ hkp))
    have he : heap[p0]? = some heap[p0] := List.getElem?_eq_getElem hp0
    by_cases hk : k0 = k
    · simp [encodeTable, snapGet, mapGet, he, hk]
    · simp only [encodeTable, he, snapGet, mapGet, hk, if_false]
      exact ih'

theorem keys_encodeTable (heap : List MessageCode) (m : List (Int × Ptr))
    (hvalid : ∀ kp ∈ m, kp.2 < heap.length) :
    (encodeTable heap m).map Prod.fst = mapKeys m := by
  induction m with
  | nil => simp [encodeTable, mapKeys]
  | cons e rest ih =>
    obtain ⟨k0, p0⟩ := e
    have hp0 : p0 < heap.length := hvalid (k0, p0) (List.mem_cons_self _ _)
    have ih' := ih (fun kp hkp => hvalid kp (List.mem_cons_of_mem _ hkp))
    have he : heap[p0]? = some heap[p0] := List.getElem?_eq_getElem hp0
    simp only [encodeTable, he, List.map_cons, mapKeys]
    rw [ih']
    rfl

/-- C9: immediately after any `addCode`, `modifyCode` or `deleteCode` call
that returns a record, the snapshot file holds an encoded table that has the
keys of the in-memory table and the same record under every key. -/
theorem snapshot_matches (c : Call) (s s1 : State) (p : Ptr) (hwf : s.WF)
    (h : step c s = (Outcome.returned (some p), s1)) :
    ∃ t, s1.file = Disk.snapshot t ∧ t.map Prod.fst = mapKeys s1.messageCodes ∧
      ∀ k, snapGet t k = s1.lookup k := by
  have hsh := step_shape c s
  rw [h] at hsh
  have hwf1 := tableStep_wf s s1 hsh hwf
  obtain ⟨-, q, io, mid, hp⟩ := step_returned c s s1 (some p) h
  obtain ⟨-, -, hs1⟩ := persist_returned_some _ _ _ _ _ hp
  have hfile : s1.file = Disk.snapshot (encodeTable s1.heap s1.messageCodes) := by
    rw [hs1]
  refine ⟨_, hfile, keys_encodeTable _ _ hwf1.1, ?_⟩
  intro k
  rw [snapGet_encodeTable _ _ hwf1.1 k]
  rfl

/-- C9 on the `Modify` of the specification's scenario. -/
theorem snapshot_matches_witness :
    timeoutState.WF ∧
      step (Call.modify 0 "Timeout Error" "Request took too long" ip_10_0_0_2 2000 Storage.ok)
          timeoutState = (Outcome.returned (some 0), timeoutErrorState) ∧
      ∃ t, timeoutErrorState.file = Disk.snapshot t ∧
        t.map Prod.fst = mapKeys timeoutErrorState.messageCodes ∧
        ∀ k, snapGet t k = timeoutErrorState.lookup k :=
  ⟨by decide, by decide,
   snapshot_matches
     (Call.modify 0 "Timeout Error" "Request took too long" ip_10_0_0_2 2000 Storage.ok)
     timeoutState timeoutErrorState 0 (by decide) (by decide)⟩

/-- C10: when opening the snapshot file fails, each of `addCode`,
`modifyCode` (existing id) and `deleteCode` (existing id) returns nil, leaves
the snapshot file as it was, and leaves in memory the mutated table: the new
record is stored under the old table size (and, the heap discipline given, the
other keys are as before), the record under `id` carries the new title,
description, `Modified` and `ModifiedIp`, respectively the new `Deleted`
flag; heap and map are those the same call produces when it succeeds. -/
theorem open_failure (s : State) (title description : String) (ip : IP) (now : Time)
    (d : Bool) (hfree : s.modlock = false) :
    ((addCode title description ip now Storage.createFails s).1 = Outcome.returned none ∧
      (addCode title description ip now Storage.createFails s).2.file = s.file ∧
      (addCode title description ip now Storage.createFails s).2.heap =
        (addCode title description ip now Storage.ok s).2.heap ∧
      (addCode title description ip now Storage.createFails s).2.messageCodes =
        (addCode title description ip now Storage.ok s).2.messageCodes ∧
      (addCode title description ip now Storage.ok s).1 = Outcome.returned (some s.heap.length) ∧
      (addCode title description ip now Storage.createFails s).2.lookup (mapLen s.messageCodes) =
        some { Code := mapLen s.messageCodes, Deleted := false, Title := title,
               Description := description, Created := now, CreatedIp := ip,
               Modified := now, ModifiedIp := ip } ∧
      (s.WF → ∀ k, k ≠ mapLen s.messageCodes →
        (addCode title description ip now Storage.createFails s).2.lookup k = s.lookup k)) ∧
    ∀ (id : Int) (r : MessageCode), s.lookup id = some r →
      ((modifyCode id title description ip now Storage.createFails s).1 = Outcome.returned none ∧
        (modifyCode id title description ip now Storage.createFails s).2.file = s.file ∧
        (modifyCode id title description ip now Storage.createFails s).2.heap =
          (modifyCode id title description ip now Storage.ok s).2.heap ∧
        (modifyCode id title description ip now Storage.createFails s).2.messageCodes =
          (modifyCode id title description ip now Storage.ok s).2.messageCodes ∧
        (modifyCode id title description ip now Storage.ok s).1 =
          Outcome.returned (mapGet s.messageCodes id) ∧
        (modifyCode id title description ip now Storage.createFails s).2.lookup id =
          some { Code := r.Code, Deleted := r.Deleted, Title := title,
                 Description := description, Created := r.Created, CreatedIp := r.CreatedIp,
                 Modified := now, ModifiedIp := ip }) ∧
      ((deleteCode id d ip Storage.createFails s).1 = Outcome.returned none ∧
        (deleteCode id d ip Storage.createFails s).2.file = s.file ∧
        (deleteCode id d ip Storage.createFails s).2.heap =
          (deleteCode id d ip Storage.ok s).2.heap ∧
        (deleteCode id d ip Storage.createFails s).2.messageCodes =
          (deleteCode id d ip Storage.ok s).2.messageCodes ∧
        (deleteCode id d ip Storage.ok s).1 = Outcome.returned (mapGet s.messageCodes id) ∧
        (deleteCode id d ip Storage.createFails s).2.lookup id =
          some { Code := r.Code, Deleted := d, Title := r.Title,
                 Description := r.Description, Created := r.Created, CreatedIp := r.CreatedIp,
                 Modified := r.Modified, ModifiedIp := r.ModifiedIp }) := by
  refine ⟨?_, ?_⟩
  · have hnew : (addCode title description ip now Storage.createFails s).2.lookup
        (mapLen s.messageCodes) = some (newRecord s title description ip now) := by
      rw [addCode_free _ _ _ _ _ _ hfree, persist_lookup]
      simp [State.lookup, mapGet_mapSet_self]
    have hframe : s.WF → ∀ k, k ≠ mapLen s.messageCodes →
        (addCode title description ip now Storage.createFails s).2.lookup k = s.lookup k := by
      intro hwf k hk
      rw [lookup_addCode title description ip now Storage.createFails s hwf hfree k, if_neg hk]
    refine ⟨?_, ?_, ?_, ?_, ?_, hnew, hframe⟩
    all_goals (rw [addCode_free _ _ _ _ _ _ hfree]; try rw [addCode_free _ _ _ _ _ _ hfree])
    all_goals rfl
  · intro id r hr
    obtain ⟨q, hq, hh⟩ := lookup_some _ _ _ hr
    refine ⟨?_, ?_⟩
    · have hfst : (modifyCode id title description ip now Storage.createFails s).1 =
          Outcome.returned none := by
        rw [modifyCode_present id title description ip now _ s q r hfree hq hh]
        rfl
      have hl := modifyCode_lookup s _ id title description ip now Storage.createFails none r hr
        (Prod.ext hfst rfl)
      refine ⟨hfst, ?_, ?_, ?_, ?_, hl⟩
      all_goals
        (rw [modifyCode_present id title description ip now _ s q r hfree hq hh]
         try rw [modifyCode_present id title description ip now _ s q r hfree hq hh])
      · rfl
      · rfl
      · rfl
      · rw [hq]
        rfl
    · have hl := deleteCode_lookup s id d ip Storage.createFails r hfree hr
      refine ⟨?_, ?_, ?_, ?_, ?_, hl⟩
      all_goals
        (rw [deleteCode_present id d ip _ s q r hfree hq hh]
         try rw [deleteCode_present id d ip _ s q r hfree hq hh])
      · rfl
      · rfl
      · rfl
      · rfl
      · rw [hq]
        rfl

/-- C10 on the table of the specification's scenario, for each of the three
functions: after a failed `Add` there are two records in memory, after a
failed `Modify` record 0 has the new title, after a failed `SetDeleted` it is
deleted, and each time the file still holds the old snapshot. -/
theorem open_failure_witness :
    timeoutState.modlock = false ∧ timeoutState.lookup 0 = some timeoutRecord ∧
      timeoutState.WF ∧
      addCode "Timeout Error" "" ip_10_0_0_2 2000 Storage.createFails timeoutState =
        (Outcome.returned none,
          { heap := [timeoutRecord,
                     { Code := 1, Deleted := false, Title := "Timeout Error", Description := "",
                       Created := 2000, CreatedIp := ip_10_0_0_2, Modified := 2000,
                       ModifiedIp := ip_10_0_0_2 }]
            messageCodes := [(0, 0), (1, 1)]
            file := Disk.snapshot [(0, timeoutRecord)]
            modlock := false }) ∧
      (addCode "Timeout Error" "" ip_10_0_0_2 2000 Storage.createFails timeoutState).2.lookup 1 =
        some { Code := 1, Deleted := false, Title := "Timeout Error", Description := "",
               Created := 2000, CreatedIp := ip_10_0_0_2, Modified := 2000,
               ModifiedIp := ip_10_0_0_2 } ∧
      modifyCode 0 "Timeout Error" "" ip_10_0_0_2 2000 Storage.createFails timeoutState =
        (Outcome.returned none,
          { heap := [{ timeoutRecord with Title := "Timeout Error", Description := "",
                                          Modified := 2000, ModifiedIp := ip_10_0_0_2 }]
            messageCodes := [(0, 0)]
            file := Disk.snapshot [(0, timeoutRecord)]
            modlock := false }) ∧
      (modifyCode 0 "Timeout Error" "" ip_10_0_0_2 2000 Storage.createFails
          timeoutState).2.lookup 0 =
        some { Code := 0, Deleted := false, Title := "Timeout Error", Description := "",
               Created := 1000, CreatedIp := ip_10_0_0_1, Modified := 2000,
               ModifiedIp := ip_10_0_0_2 } ∧
      deleteCode 0 true ip_10_0_0_2 Storage.createFails timeoutState =
        (Outcome.returned none,
          { heap := [{ timeoutRecord with Deleted := true }]
            messageCodes := [(0, 0)]
            file := Disk.snapshot [(0, timeoutRecord)]
            modlock := false }) ∧
      (deleteCode 0 true ip_10_0_0_2 Storage.createFails timeoutState).2.lookup 0 =
        some { Code := 0, Deleted := true, Title := "Timeout",
               Description := "Request took too long", Created := 1000,
               CreatedIp := ip_10_0_0_1, Modified := 1000, ModifiedIp := ip_10_0_0_1 } :=
  ⟨rfl, rfl, by decide, by decide,
   (open_failure timeoutState "Timeout Error" "" ip_10_0_0_2 2000 true rfl).1.2.2.2.2.2.1,
   by decide,
   ((open_failure timeoutState "Timeout Error" "" ip_10_0_0_2 2000 true rfl).2 0
      timeoutRecord rfl).1.2.2.2.2.2,
   by decide,
   ((open_failure timeoutState "Timeout Error" "" ip_10_0_0_2 2000 true rfl).2 0
      timeoutRecord rfl).2.2.2.2.2.2⟩

/-! ## The request handlers -/

theorem parseInt_empty : parseInt "" = none := by decide

theorem persist_fst_of_ne (c : Ptr) (io : Storage) (s : State) (h : io ≠ Storage.encodeFails) :
    (∃ o, (persist c io s).1 = Outcome.returned o) ∧ (persist c io s).2.modlock = false := by
  cases io
  · exact ⟨⟨none, rfl⟩, rfl⟩
  · exact absurd rfl h
  · exact ⟨⟨some c, rfl⟩, rfl⟩

theorem deleteCode_returns (id : Int) (d : Bool) (ip : IP) (io : Storage) (s : State)
    (r : MessageCode) (hfree : s.modlock = false) (hr : s.lookup id = some r)
    (hio : io ≠ Storage.encodeFails) :
    (∃ o, (deleteCode id d ip io s).1 = Outcome.returned o) ∧
      (deleteCode id d ip io s).2.modlock = false := by
  obtain ⟨q, hq, hh⟩ := lookup_some _ _ _ hr
  rw [deleteCode_present id d ip io s q r hfree hq hh]
  exact persist_fst_of_ne _ _ _ hio

theorem modifyCode_returns (id : Int) (title description : String) (ip : IP) (now : Time)
    (io : Storage) (s : State) (r : MessageCode) (hfree : s.modlock = false)
    (hr : s.lookup id = some r) (hio : io ≠ Storage.encodeFails) :
    (∃ o, (modifyCode id title description ip now io s).1 = Outcome.returned o) ∧
      (modifyCode id title description ip now io s).2.modlock = false := by
  obtain ⟨q, hq, hh⟩ := lookup_some _ _ _ hr
  rw [modifyCode_present id title description ip now io s q r hfree hq hh]
  exact persist_fst_of_ne _ _ _ hio

theorem modifyHandlerTail_returns (r : Request) (id : Int) (now : Time) (io : Storage)
    (s : State) (rec : MessageCode) (hfree : s.modlock = false)
    (hr : s.lookup id = some rec) (htitle : r.title ≠ "") (hio : io ≠ Storage.encodeFails) :
    modifyHandlerTail r id now io s =
      (Handled.replied Reply.seeOther,
        (modifyCode id r.title r.description r.ip now io s).2) := by
  obtain ⟨⟨o, ho⟩, -⟩ := modifyCode_returns id r.title r.description r.ip now io s rec hfree hr hio
  unfold modifyHandlerTail
  rw [if_neg htitle]
  cases hm : modifyCode id r.title r.description r.ip now io s with
  | mk out s1 =>
    rw [hm] at ho
    simp only at ho
    subst ho
    rfl

/-- The rejections that leave the state alone: an empty title in
`addHandler`; a missing id or an id that is no integer in `modifyHandler`,
whatever the other fields are; an empty title in `modifyHandler` when neither
the delete nor the undelete flag is set. -/
theorem validation_no_change (r : Request) (now : Time) (io1 io2 : Storage) (s : State) :
    (r.title = "" →
      addHandler r now io1 s = (Handled.replied (Reply.text "Requires TITLE field."), s)) ∧
    (r.id = "" →
      modifyHandler r now io1 io2 s = (Handled.replied (Reply.text "Requires ID field."), s)) ∧
    (r.id ≠ "" → parseInt r.id = none →
      modifyHandler r now io1 io2 s =
        (Handled.replied (Reply.text "Requires ID field that is an integer."), s)) ∧
    (∀ id, parseInt r.id = some id → r.delete = "" → r.undelete = "" → r.title = "" →
      modifyHandler r now io1 io2 s =
        (Handled.replied (Reply.text "Requires TITLE field."), s)) := by
  refine ⟨?_, ?_, ?_, ?_⟩
  · intro h
    simp [addHandler, h]
  · intro h
    simp [modifyHandler, h]
  · intro h1 h2
    simp [modifyHandler, h1, h2]
  · intro id hid hd hu ht
    have hne : r.id ≠ "" := by
      intro h
      rw [h, parseInt_empty] at hid
      cases hid
    simp [modifyHandler, modifyHandlerTail, hne, hid, hd, hu, ht]

/-- C11: the code at the request `id=0, delete=Delete, title=""` on the
table of the specification's scenario.  `modifyHandler` answers with the
validation message `Requires TITLE field.`, and yet record 0 is now deleted
and the snapshot file has been rewritten: `deleteCode` runs before the title
is checked. -/
theorem modifyHandler_deletes_before_title_check :
    timeoutState.lookup 0 = some timeoutRecord ∧
      (modifyHandler deleteWithoutTitle 3000 Storage.ok Storage.ok timeoutState).1 =
        Handled.replied (Reply.text "Requires TITLE field.") ∧
      (modifyHandler deleteWithoutTitle 3000 Storage.ok Storage.ok timeoutState).2.lookup 0 =
        some { timeoutRecord with Deleted := true } ∧
      (modifyHandler deleteWithoutTitle 3000 Storage.ok Storage.ok timeoutState).2.file =
        Disk.snapshot [(0, { timeoutRecord with Deleted := true })] ∧
      (modifyHandler deleteWithoutTitle 3000 Storage.ok Storage.ok timeoutState).2.file ≠
        timeoutState.file := by
  decide

/-- C12: for every table and every `modifyHandler` request whose id parses as
an integer present in the table and whose title is non-empty (the gate free
and no `Encode` failure): if the delete or the undelete flag is set, the
handler redirects and leaves the state of `deleteCode(id, deleteFlagIsSet, ip)`
followed by `modifyCode(id, title, description, ip)`, with `Deleted` equal to
whether the delete flag is set; if neither flag is set, it leaves the state of
`modifyCode` alone and `Deleted` is unchanged. -/
theorem modifyHandler_spec (s : State) (r : Request) (id : Int) (rec : MessageCode)
    (now : Time) (io1 io2 : Storage) (hfree : s.modlock = false)
    (hid : parseInt r.id = some id) (hrec : s.lookup id = some rec) (htitle : r.title ≠ "")
    (h1 : io1 ≠ Storage.encodeFails) (h2 : io2 ≠ Storage.encodeFails) :
    (r.delete ≠ "" ∨ r.undelete ≠ "" →
      modifyHandler r now io1 io2 s =
        (Handled.replied Reply.seeOther,
          (modifyCode id r.title r.description r.ip now io2
            (deleteCode id (decide (r.delete ≠ "")) r.ip io1 s).2).2) ∧
      (modifyHandler r now io1 io2 s).2.lookup id = some
        { rec with Deleted := decide (r.delete ≠ ""), Title := r.title,
                   Description := r.description, Modified := now, ModifiedIp := r.ip }) ∧
    (r.delete = "" ∧ r.undelete = "" →
      modifyHandler r now io1 io2 s =
        (Handled.replied Reply.seeOther,
          (modifyCode id r.title r.description r.ip now io2 s).2) ∧
      (modifyHandler r now io1 io2 s).2.lookup id = some
        { rec with Title := r.title, Description := r.description, Modified := now,
                   ModifiedIp := r.ip }) := by
  have hne : r.id ≠ "" := by
    intro h
    rw [h, parseInt_empty] at hid
    cases hid
  constructor
  · intro hflag
    have hb : (decide (r.delete ≠ "") || decide (r.undelete ≠ "")) = true := by
      rcases hflag with h | h
      · simp [h]
      · simp [h]
    obtain ⟨⟨o, ho⟩, hfree1⟩ :=
      deleteCode_returns id (decide (r.delete ≠ "")) r.ip io1 s rec hfree hrec h1
    have hl1 := deleteCode_lookup s id (decide (r.delete ≠ "")) r.ip io1 rec hfree hrec
    have heq : modifyHandler r now io1 io2 s =
        (Handled.replied Reply.seeOther,
          (modifyCode id r.title r.description r.ip now io2
            (deleteCode id (decide (r.delete ≠ "")) r.ip io1 s).2).2) := by
      unfold modifyHandler
      rw [if_neg hne, hid]
      simp only [hb, if_true]
      cases hd : deleteCode id (decide (r.delete ≠ "")) r.ip io1 s with
      | mk out s1 =>
        rw [hd] at ho hfree1 hl1
        simp only at ho hfree1 hl1
        subst ho
        exact modifyHandlerTail_returns r id now io2 s1 _ hfree1 hl1 htitle h2
    refine ⟨heq, ?_⟩
    rw [heq]
    obtain ⟨⟨o2, ho2⟩, -⟩ := modifyCode_returns id r.title r.description r.ip now io2
      (deleteCode id (decide (r.delete ≠ "")) r.ip io1 s).2 _ hfree1 hl1 h2
    exact modifyCode_lookup _ _ id r.title r.description r.ip now io2 o2 _ hl1
      (Prod.ext ho2 rfl)
  · intro hflag
    have hb : (decide (r.delete ≠ "") || decide (r.undelete ≠ "")) = false := by
      simp [hflag.1, hflag.2]
    have heq : modifyHandler r now io1 io2 s =
        (Handled.replied Reply.seeOther,
          (modifyCode id r.title r.description r.ip now io2 s).2) := by
      unfold modifyHandler
      rw [if_neg hne, hid]
      simp only [hb]
      exact modifyHandlerTail_returns r id now io2 s rec hfree hrec htitle h2
    refine ⟨heq, ?_⟩
    rw [heq]
    obtain ⟨⟨o2, ho2⟩, -⟩ := modifyCode_returns id r.title r.description r.ip now io2 s rec
      hfree hrec h2
    exact modifyCode_lookup _ _ id r.title r.description r.ip now io2 o2 _ hrec
      (Prod.ext ho2 rfl)

/-- C12 on a request for record 0 of the specification's scenario that
carries both the delete and the undelete flag: the record ends deleted, with
the new title. -/
theorem modifyHandler_spec_witness :
    timeoutState.modlock = false ∧ parseInt deleteAndUndelete.id = some 0 ∧
      timeoutState.lookup 0 = some timeoutRecord ∧ deleteAndUndelete.title ≠ "" ∧
      (modifyHandler deleteAndUndelete 3000 Storage.ok Storage.ok timeoutState).2.lookup 0 =
        some { Code := 0, Deleted := true, Title := "Timeout Error",
               Description := "Request took too long", Created := 1000,
               CreatedIp := ip_10_0_0_1, Modified := 3000, ModifiedIp := ip_10_0_0_3 } :=
  ⟨rfl, by decide, rfl, by decide,
   ((modifyHandler_spec timeoutState deleteAndUndelete 0 timeoutRecord 3000 Storage.ok
      Storage.ok rfl (by decide) rfl (by decide) (by decide) (by decide)).1
      (Or.inl (by decide))).2⟩

/-! ## The listing -/

theorem indexLoop_spec (s : State) (n : Nat) (i : Int)
    (h : ∀ j : Nat, j < n → ∃ code, s.lookup (i + j) = some code) :
    ∃ rows, indexLoop s n i = some rows ∧ rows.length = n ∧
      ∀ j : Nat, j < n → ∃ code, s.lookup (i + j) = some code ∧
        rows[j]? = some (indexRow code) := by
  induction n generalizing i with
  | zero => exact ⟨[], rfl, rfl, fun j hj => absurd hj (Nat.not_lt_zero j)⟩
  | succ n ih =>
    obtain ⟨code0, h0⟩ := h 0 (Nat.succ_pos n)
    have h0' : s.lookup i = some code0 := by simpa using h0
    have hrest : ∀ j : Nat, j < n → ∃ code, s.lookup (i + 1 + j) = some code := by
      intro j hj
      obtain ⟨code, hc⟩ := h (j + 1) (Nat.succ_lt_succ hj)
      refine ⟨code, ?_⟩
      rw [← hc]
      congr 1
      push_cast
      omega
    obtain ⟨rows, hrows, hlen, hget⟩ := ih (i + 1) hrest
    refine ⟨indexRow code0 :: rows, ?_, by simp [hlen], ?_⟩
    · simp [indexLoop, h0', hrows]
    · intro j hj
      cases j with
      | zero => exact ⟨code0, h0, by simp⟩
      | succ j =>
        obtain ⟨code, hc, hr⟩ := hget j (Nat.lt_of_succ_lt_succ hj)
        refine ⟨code, ?_, by simpa using hr⟩
        rw [← hc]
        congr 1
        push_cast
        omega

theorem indexRow_code (code : MessageCode) : (indexRow code).code = code := by
  unfold indexRow
  split <;> rfl

theorem inv_lookup_index (s : State) (hinv : s.Inv) (j : Nat) (hj : j < s.messageCodes.length) :
    ∃ code, s.lookup (j : Int) = some code ∧ code.Code = (j : Int) := by
  have hmem : (j : Int) ∈ mapKeys s.messageCodes := by
    rw [hinv.2.1]
    unfold mapLen
    omega
  obtain ⟨q, hq⟩ := (mem_mapKeys_iff _ _).mp hmem
  have hlt : q < s.heap.length := hinv.1.1 (_, q) (mem_of_mapGet _ _ _ hq)
  refine ⟨s.heap[q], ?_, ?_⟩
  · rw [lookup_of_ptr _ _ _ hq]
    exact List.getElem?_eq_getElem hlt
  · apply hinv.2.2
    rw [lookup_of_ptr _ _ _ hq]
    exact List.getElem?_eq_getElem hlt

/-- C13: for every table reached from the empty table by `addCode`,
`modifyCode` and `deleteCode` calls that return, the loop of `indexHandler`
finds a record at every index, and writes one row per key of the table: row
`j` is the row of the record stored under `j`, whose `Code` is `j`, deleted or
not; every record of the table has its row. -/
theorem indexHandler_lists (cs : List Call) (ps : List (Option Ptr)) (s : State)
    (h : run cs State.empty = some (ps, s)) :
    ∃ rows, indexHandler s = some rows ∧ rows.length = s.messageCodes.length ∧
      (∀ j : Nat, j < s.messageCodes.length → ∃ code, s.lookup (j : Int) = some code ∧
        code.Code = (j : Int) ∧ rows[j]? = some (indexRow code)) ∧
      (∀ k code, s.lookup k = some code →
        ∃ j : Nat, (j : Int) = k ∧ rows[j]? = some (indexRow code)) ∧
      rows.map (fun row => row.code.Code) =
        (List.range s.messageCodes.length).map (fun j : Nat => (j : Int)) := by
  have hinv := run_inv cs State.empty s ps inv_empty h
  have hall : ∀ j : Nat, j < s.messageCodes.length →
      ∃ code, s.lookup ((0 : Int) + j) = some code := by
    intro j hj
    obtain ⟨code, hc, -⟩ := inv_lookup_index s hinv j hj
    exact ⟨code, by simpa using hc⟩
  obtain ⟨rows, hrows, hlen, hget⟩ := indexLoop_spec s s.messageCodes.length 0 hall
  have hrow : ∀ j : Nat, j < s.messageCodes.length → ∃ code, s.lookup (j : Int) = some code ∧
      code.Code = (j : Int) ∧ rows[j]? = some (indexRow code) := by
    intro j hj
    obtain ⟨code, hc, hr⟩ := hget j hj
    have hc' : s.lookup (j : Int) = some code := by simpa using hc
    exact ⟨code, hc', hinv.2.2 _ _ hc', hr⟩
  refine ⟨rows, hrows, hlen, hrow, ?_, ?_⟩
  · intro k code hk
    obtain ⟨q, hq, -⟩ := lookup_some _ _ _ hk
    have hmem : k ∈ mapKeys s.messageCodes := (mem_mapKeys_iff _ _).mpr ⟨q, hq⟩
    have hrange := (hinv.2.1 k).mp hmem
    unfold mapLen at hrange
    have hj : k.toNat < s.messageCodes.length := by omega
    have hkj : ((k.toNat : Nat) : Int) = k := by omega
    obtain ⟨code1, hc1, -, hr1⟩ := hrow k.toNat hj
    rw [hkj, hk] at hc1
    cases hc1
    exact ⟨k.toNat, hkj, hr1⟩
  · apply List.ext_getElem?
    intro j
    by_cases hj : j < s.messageCodes.length
    · obtain ⟨code, -, hcode, hr⟩ := hrow j hj
      rw [List.getElem?_map, List.getElem?_map, hr, List.getElem?_range hj]
      simp only [Option.map_some', indexRow_code, hcode]
    · have h1 : rows.length ≤ j := by omega
      have h2 : (List.range s.messageCodes.length).length ≤ j := by
        rw [List.length_range]
        omega
      rw [List.getElem?_map, List.getElem?_map, List.getElem?_eq_none h1,
        List.getElem?_eq_none h2]
      rfl

/-- C13 on the table built by `threeAdds`. -/
theorem indexHandler_lists_witness :
    run threeAdds State.empty = some ([some 0, none, some 2], threeAddsState) ∧
      ∃ rows, indexHandler threeAddsState = some rows ∧ rows.length = 3 ∧
        rows.map (fun row => row.code.Code) = [0, 1, 2] :=
  ⟨by decide,
   (indexHandler_lists threeAdds [some 0, none, some 2] threeAddsState (by decide)).imp
     (fun _ hrows => ⟨hrows.1, hrows.2.1, hrows.2.2.2.2⟩)⟩

/-! ## The startup load and the snapshot round trip -/

theorem snapGet_of_not_mem (t : List (Int × MessageCode)) (k : Int)
    (h : k ∉ t.map Prod.fst) : snapGet t k = none := by
  induction t with
  | nil => rfl
  | cons e rest ih =>
    obtain ⟨k0, r0⟩ := e
    have h' : ¬ k = k0 ∧ k ∉ rest.map Prod.fst := by simpa using h
    have hk : ¬ k0 = k := fun h1 => h'.1 h1.symm
    simp only [snapGet, hk, if_false]
    exact ih h'.2

theorem decodeInto_valid (s : State) (t : List (Int × MessageCode))
    (hvalid : ∀ kp ∈ s.messageCodes, kp.2 < s.heap.length) :
    ∀ kp ∈ (decodeInto s t).messageCodes, kp.2 < (decodeInto s t).heap.length := by
  induction t generalizing s with
  | nil => exact hvalid
  | cons e rest ih =>
    obtain ⟨k0, r0⟩ := e
    apply ih
    intro kp hkp
    show kp.2 < (s.heap ++ [r0]).length
    rw [List.length_append]
    rcases mem_mapSet _ _ _ _ hkp with h1 | h1
    · rw [h1]
      simp
    · exact Nat.lt_of_lt_of_le (hvalid kp h1) (Nat.le_add_right _ _)

theorem decodeInto_nodup (s : State) (t : List (Int × MessageCode))
    (hnodup : (mapKeys s.messageCodes).Nodup) :
    (mapKeys (decodeInto s t).messageCodes).Nodup := by
  induction t generalizing s with
  | nil => exact hnodup
  | cons e rest ih =>
    obtain ⟨k0, r0⟩ := e
    apply ih
    exact nodup_mapKeys_mapSet _ _ _ hnodup

theorem mem_mapKeys_decodeInto (s : State) (t : List (Int × MessageCode)) (k : Int) :
    k ∈ mapKeys (decodeInto s t).messageCodes ↔
      k ∈ mapKeys s.messageCodes ∨ k ∈ t.map Prod.fst := by
  induction t generalizing s with
  | nil => simp [decodeInto]
  | cons e rest ih =>
    obtain ⟨k0, r0⟩ := e
    simp only [decodeInto, List.map_cons, List.mem_cons]
    rw [ih]
    show k ∈ mapKeys (mapSet s.messageCodes k0 s.heap.length) ∨ _ ↔ _
    rw [mem_mapKeys_mapSet]
    tauto

/-- Decoding a mapping whose keys are distinct: a key of the mapping reads
as the decoded record, any other key as before. -/
theorem lookup_decodeInto (s : State) (t : List (Int × MessageCode))
    (hvalid : ∀ kp ∈ s.messageCodes, kp.2 < s.heap.length)
    (hnodup : (t.map Prod.fst).Nodup) (k : Int) :
    (decodeInto s t).lookup k =
      match snapGet t k with
      | some r => some r
      | none => s.lookup k := by
  induction t generalizing s with
  | nil => rfl
  | cons e rest ih =>
    obtain ⟨k0, r0⟩ := e
    have hnd : k0 ∉ rest.map Prod.fst ∧ (rest.map Prod.fst).Nodup := by
      simpa using hnodup
    have hvalid1 : ∀ kp ∈ mapSet s.messageCodes k0 s.heap.length,
        kp.2 < (s.heap ++ [r0]).length := by
      intro kp hkp
      rw [List.length_append]
      rcases mem_mapSet _ _ _ _ hkp with h1 | h1
      · rw [h1]
        simp
      · exact Nat.lt_of_lt_of_le (hvalid kp h1) (Nat.le_add_right _ _)
    have ih' := ih
      { s with heap := s.heap ++ [r0], messageCodes := mapSet s.messageCodes k0 s.heap.length }
      hvalid1 hnd.2
    simp only [decodeInto]
    rw [ih']
    by_cases hk : k0 = k
    · subst hk
      rw [snapGet_of_not_mem _ _ hnd.1]
      simp [snapGet, State.lookup, mapGet_mapSet_self]
    · simp only [snapGet, hk, if_false]
      cases hs : snapGet rest k with
      | some r => rfl
      | none =>
        have hk' : k ≠ k0 := fun h => hk h.symm
        simp only [State.lookup, mapGet_mapSet_ne _ _ _ _ hk']
        cases hg : mapGet s.messageCodes k with
        | none => rfl
        | some p =>
          have hp : p < s.heap.length := hvalid (k, p) (mem_of_mapGet _ _ _ hg)
          simp [heap_append_of_valid _ _ _ hp]

/-- C14: the startup load.  When `os.Open` reports that the file does not
exist, the table is empty, the three handlers are registered and the process
has not exited; when the file opens and decodes to a mapping, the table is
that mapping, the handlers are registered and the process has not exited;
when the file cannot be opened for another reason, or opens and cannot be
decoded, the process exits with status 1 and no handler is registered. -/
theorem main_load (file : Disk) (t : List (Int × MessageCode)) :
    ((main Opened.notExist file).exit = none ∧
      (main Opened.notExist file).handlers = ["/", "/add", "/modify"] ∧
      (main Opened.notExist file).state.messageCodes = [] ∧
      ∀ k, (main Opened.notExist file).state.lookup k = none) ∧
    ((main Opened.file (Disk.snapshot t)).exit = none ∧
      (main Opened.file (Disk.snapshot t)).handlers = ["/", "/add", "/modify"] ∧
      (main Opened.file (Disk.snapshot t)).state.WF ∧
      (∀ k, k ∈ mapKeys (main Opened.file (Disk.snapshot t)).state.messageCodes ↔
        k ∈ t.map Prod.fst) ∧
      ((t.map Prod.fst).Nodup →
        ∀ k, (main Opened.file (Disk.snapshot t)).state.lookup k = snapGet t k)) ∧
    ((main Opened.failed file).exit = some 1 ∧ (main Opened.failed file).handlers = []) ∧
    ((main Opened.file Disk.damaged).exit = some 1 ∧
      (main Opened.file Disk.damaged).handlers = []) := by
  refine ⟨⟨rfl, rfl, rfl, fun k => rfl⟩, ⟨rfl, rfl, ⟨?_, ?_⟩, ?_, ?_⟩, ⟨rfl, rfl⟩, ⟨rfl, rfl⟩⟩
  · exact decodeInto_valid _ t (by intro kp hkp; cases hkp)
  · exact decodeInto_nodup _ t (by simp [mapKeys])
  · intro k
    show k ∈ mapKeys (decodeInto _ t).messageCodes ↔ _
    rw [mem_mapKeys_decodeInto]
    simp [mapKeys]
  · intro hnd k
    show (decodeInto _ t).lookup k = _
    rw [lookup_decodeInto _ t (by intro kp hkp; cases hkp) hnd k]
    cases snapGet t k <;> rfl

/-- C14 on the snapshot written by the `Add` of the specification's scenario:
startup loads record 0. -/
theorem main_load_witness :
    (List.map Prod.fst [((0 : Int), timeoutRecord)]).Nodup ∧
      (main Opened.file (Disk.snapshot [(0, timeoutRecord)])).exit = none ∧
      ∀ k, (main Opened.file (Disk.snapshot [(0, timeoutRecord)])).state.lookup k =
        snapGet [(0, timeoutRecord)] k :=
  ⟨by decide, (main_load Disk.absent [(0, timeoutRecord)]).2.1.1,
   (main_load Disk.absent [(0, timeoutRecord)]).2.1.2.2.2.2 (by decide)⟩

theorem nodup_keys_encodeTable (heap : List MessageCode) (m : List (Int × Ptr))
    (hvalid : ∀ kp ∈ m, kp.2 < heap.length) (hnodup : (mapKeys m).Nodup) :
    ((encodeTable heap m).map Prod.fst).Nodup := by
  rw [keys_encodeTable heap m hvalid]
  exact hnodup

/-- C15: for every table, the startup load applied to the snapshot that
encoding the table produces (decoding into the empty table) yields a table
with the same keys and, under every key, a record equal to the original in
every field. -/
theorem snapshot_roundtrip (s : State) (hwf : s.WF) :
    (main Opened.file (Disk.snapshot (encodeTable s.heap s.messageCodes))).exit = none ∧
      (∀ k, (main Opened.file (Disk.snapshot (encodeTable s.heap s.messageCodes))).state.lookup k
        = s.lookup k) ∧
      ∀ k, k ∈ mapKeys
          (main Opened.file (Disk.snapshot (encodeTable s.heap s.messageCodes))).state.messageCodes
        ↔ k ∈ mapKeys s.messageCodes := by
  refine ⟨rfl, ?_, ?_⟩
  · intro k
    show (decodeInto _ (encodeTable s.heap s.messageCodes)).lookup k = _
    rw [lookup_decodeInto _ _ (by intro kp hkp; cases hkp)
      (nodup_keys_encodeTable _ _ hwf.1 hwf.2) k, snapGet_encodeTable _ _ hwf.1 k]
    unfold State.lookup
    cases hg : mapGet s.messageCodes k with
    | none => rfl
    | some p =>
      cases hh : s.heap[p]? with
      | none => simp [hh, mapGet]
      | some r => simp [hh]
  · intro k
    show k ∈ mapKeys (decodeInto _ (encodeTable s.heap s.messageCodes)).messageCodes ↔ _
    rw [mem_mapKeys_decodeInto, keys_encodeTable _ _ hwf.1]
    simp [mapKeys]

/-- C15 on the scenario of the specification: the record produced by
`Add("Timeout", "Request took too long", 10.0.0.1)` on the empty table is
reproduced exactly by a restart on the file that call wrote. -/
theorem snapshot_roundtrip_witness :
    timeoutState.WF ∧
      addCode "Timeout" "Request took too long" ip_10_0_0_1 1000 Storage.ok State.empty
        = (Outcome.returned (some 0), timeoutState) ∧
      timeoutState.file = Disk.snapshot (encodeTable timeoutState.heap timeoutState.messageCodes) ∧
      (main Opened.file timeoutState.file).state.lookup 0 = some
        { Code := 0, Deleted := false, Title := "Timeout",
          Description := "Request took too long", Created := 1000, CreatedIp := ip_10_0_0_1,
          Modified := 1000, ModifiedIp := ip_10_0_0_1 } :=
  ⟨by decide, by decide, by decide, (snapshot_roundtrip timeoutState (by decide)).2.1 0⟩

/-! ## Missing ids and the gate -/

theorem mapGet_none_of_not_mem (m : List (Int × Ptr)) (k : Int) (h : k ∉ mapKeys m) :
    mapGet m k = none := by
  cases hg : mapGet m k with
  | none => rfl
  | some p => exact absurd ((mem_mapKeys_iff m k).mpr ⟨p, hg⟩) h

theorem step_held (c : Call) (s : State) (hheld : s.modlock = true) :
    step c s = (Outcome.blocked, s) := by
  cases c <;> simp [step, addCode, modifyCode, deleteCode, hheld]

/-- C17: for every table and every id not present in it, `modifyCode(id, ...)`
and `deleteCode(id, ...)`, called with the gate free, panic on the nil record
instead of returning, and the in-memory table and the snapshot file are those
before the call. -/
theorem missing_id_faults (s : State) (id : Int) (title description : String) (ip : IP)
    (now : Time) (io : Storage) (d : Bool) (hfree : s.modlock = false)
    (hmiss : id ∉ mapKeys s.messageCodes) :
    ((modifyCode id title description ip now io s).1 = Outcome.faulted ∧
      (modifyCode id title description ip now io s).2.heap = s.heap ∧
      (modifyCode id title description ip now io s).2.messageCodes = s.messageCodes ∧
      (modifyCode id title description ip now io s).2.file = s.file) ∧
    ((deleteCode id d ip io s).1 = Outcome.faulted ∧
      (deleteCode id d ip io s).2.heap = s.heap ∧
      (deleteCode id d ip io s).2.messageCodes = s.messageCodes ∧
      (deleteCode id d ip io s).2.file = s.file) := by
  have hg := mapGet_none_of_not_mem _ _ hmiss
  constructor
  · simp [modifyCode, hfree, hg]
  · simp [deleteCode, hfree, hg]

/-- C17 on the table of the specification's scenario and the id 7. -/
theorem missing_id_faults_witness :
    timeoutState.modlock = false ∧ (7 : Int) ∉ mapKeys timeoutState.messageCodes ∧
      modifyCode 7 "x" "" ip_10_0_0_2 2000 Storage.ok timeoutState =
        (Outcome.faulted, { timeoutState with modlock := true }) ∧
      (deleteCode 7 true ip_10_0_0_2 Storage.ok timeoutState).1 = Outcome.faulted :=
  ⟨rfl, by decide, by decide,
   (missing_id_faults timeoutState 7 "x" "" ip_10_0_0_2 2000 Storage.ok true rfl
      (by decide)).2.1⟩

/-- C18: with the gate as the boolean `modlock`, every `addCode`, `modifyCode`
or `deleteCode` call that starts with the gate free and returns (with a
record, or with nil after a storage-open failure) leaves the gate free; a
`modifyCode` or `deleteCode` call on an id not in the table panics with the
gate held, and in that state every later mutating call blocks at the gate and
changes nothing. -/
theorem gate_discipline (s : State) (hfree : s.modlock = false) :
    (∀ (c : Call) (o : Option Ptr) (s1 : State),
      step c s = (Outcome.returned o, s1) → s1.modlock = false) ∧
    (∀ (id : Int) (title description : String) (ip : IP) (now : Time) (io : Storage),
      id ∉ mapKeys s.messageCodes →
      (modifyCode id title description ip now io s).1 = Outcome.faulted ∧
      (modifyCode id title description ip now io s).2.modlock = true ∧
      ∀ c : Call, step c (modifyCode id title description ip now io s).2 =
        (Outcome.blocked, (modifyCode id title description ip now io s).2)) ∧
    (∀ (id : Int) (d : Bool) (ip : IP) (io : Storage),
      id ∉ mapKeys s.messageCodes →
      (deleteCode id d ip io s).1 = Outcome.faulted ∧
      (deleteCode id d ip io s).2.modlock = true ∧
      ∀ c : Call, step c (deleteCode id d ip io s).2 =
        (Outcome.blocked, (deleteCode id d ip io s).2)) := by
  refine ⟨?_, ?_, ?_⟩
  · intro c o s1 h
    obtain ⟨-, q, io, mid, hp⟩ := step_returned c s s1 o h
    exact (persist_returned _ _ _ _ _ hp).2
  · intro id title description ip now io hmiss
    have hg := mapGet_none_of_not_mem _ _ hmiss
    have hheld : (modifyCode id title description ip now io s).2.modlock = true := by
      simp [modifyCode, hfree, hg]
    exact ⟨by simp [modifyCode, hfree, hg], hheld, fun c => step_held c _ hheld⟩
  · intro id d ip io hmiss
    have hg := mapGet_none_of_not_mem _ _ hmiss
    have hheld : (deleteCode id d ip io s).2.modlock = true := by
      simp [deleteCode, hfree, hg]
    exact ⟨by simp [deleteCode, hfree, hg], hheld, fun c => step_held c _ hheld⟩

/-- C18 on the table of the specification's scenario: a `Modify` of record 0
leaves the gate free; a `Modify` of the missing id 7 leaves it held, and a
following `Add` blocks. -/
theorem gate_discipline_witness :
    timeoutState.modlock = false ∧
      step (Call.modify 0 "Timeout Error" "Request took too long" ip_10_0_0_2 2000 Storage.ok)
          timeoutState = (Outcome.returned (some 0), timeoutErrorState) ∧
      timeoutErrorState.modlock = false ∧
      (7 : Int) ∉ mapKeys timeoutState.messageCodes ∧
      (modifyCode 7 "x" "" ip_10_0_0_2 2000 Storage.ok timeoutState).2.modlock = true ∧
      step (Call.add "y" "" ip_10_0_0_2 3000 Storage.ok)
          (modifyCode 7 "x" "" ip_10_0_0_2 2000 Storage.ok timeoutState).2 =
        (Outcome.blocked, (modifyCode 7 "x" "" ip_10_0_0_2 2000 Storage.ok timeoutState).2) :=
  ⟨rfl, by decide,
   (gate_discipline timeoutState rfl).1
     (Call.modify 0 "Timeout Error" "Request took too long" ip_10_0_0_2 2000 Storage.ok)
     (some 0) timeoutErrorState (by decide),
   by decide,
   ((gate_discipline timeoutState rfl).2.1 7 "x" "" ip_10_0_0_2 2000 Storage.ok
      (by decide)).2.1,
   ((gate_discipline timeoutState rfl).2.1 7 "x" "" ip_10_0_0_2 2000 Storage.ok
      (by decide)).2.2 (Call.add "y" "" ip_10_0_0_2 3000 Storage.ok)⟩

/-! ## `modifyCode` and `deleteCode` on the tables of the program -/

theorem reload_lookup (s : State) (hwf : s.WF) (k : Int) :
    (main Opened.file (Disk.snapshot (encodeTable s.heap s.messageCodes))).state.lookup k
      = s.lookup k := by
  show (decodeInto _ (encodeTable s.heap s.messageCodes)).lookup k = _
  rw [lookup_decodeInto _ _ (by intro kp hkp; cases hkp)
    (nodup_keys_encodeTable _ _ hwf.1 hwf.2) k, snapGet_encodeTable _ _ hwf.1 k]
  unfold State.lookup
  cases hg : mapGet s.messageCodes k with
  | none => rfl
  | some p =>
    cases hh : s.heap[p]? with
    | none => simp [hh, mapGet]
    | some r => simp [hh]

theorem reload_keys (s : State) (hwf : s.WF) (k : Int) :
    k ∈ mapKeys
        (main Opened.file (Disk.snapshot (encodeTable s.heap s.messageCodes))).state.messageCodes
      ↔ k ∈ mapKeys s.messageCodes := by
  show k ∈ mapKeys (decodeInto _ (encodeTable s.heap s.messageCodes)).messageCodes ↔ _
  rw [mem_mapKeys_decodeInto, keys_encodeTable _ _ hwf.1]
  simp [mapKeys]

/-- The invariant survives a restart: the table loaded from the snapshot of a
table that satisfies the invariant satisfies it. -/
theorem inv_reload (s : State) (hinv : s.Inv) :
    (main Opened.file (Disk.snapshot (encodeTable s.heap s.messageCodes))).state.Inv := by
  have hwf := hinv.1
  have hwf1 : (main Opened.file
      (Disk.snapshot (encodeTable s.heap s.messageCodes))).state.WF :=
    ⟨decodeInto_valid _ _ (by intro kp hkp; cases hkp),
     decodeInto_nodup _ _ (by simp [mapKeys])⟩
  have hperm : (mapKeys (main Opened.file
      (Disk.snapshot (encodeTable s.heap s.messageCodes))).state.messageCodes).Perm
      (mapKeys s.messageCodes) :=
    (List.perm_ext_iff_of_nodup hwf1.2 hwf.2).mpr (fun k => reload_keys s hwf k)
  have hlen : mapLen (main Opened.file
      (Disk.snapshot (encodeTable s.heap s.messageCodes))).state.messageCodes =
      mapLen s.messageCodes := by
    have h := hperm.length_eq
    simp only [mapKeys, List.length_map] at h
    unfold mapLen
    rw [h]
  refine ⟨hwf1, ?_, ?_⟩
  · intro k
    rw [reload_keys s hwf k, hlen]
    exact hinv.2.1 k
  · intro k r hk
    rw [reload_lookup s hwf k] at hk
    exact hinv.2.2 k r hk

theorem timeoutState_inv : timeoutState.Inv :=
  run_inv [Call.add "Timeout" "Request took too long" ip_10_0_0_1 1000 Storage.ok]
    State.empty timeoutState [some 0] inv_empty (by decide)

/-- C3: for every table and every id present in it, a successful
`modifyCode(id, title, description, ip)` at time `now` returns a record with
`Title = title`, `Description = description`, `Modified = now`,
`ModifiedIp = ip`, whose `Code`, `Deleted`, `Created` and `CreatedIp` are those
of the record stored under `id` before the call, and the table afterwards maps
`id` to that record; on every table of the program (one that satisfies the
registry invariant, as every table reached from the empty table or reloaded
from a snapshot of such a table does) the table afterwards has the same key
set and is unchanged on every other key. -/
theorem modifyCode_spec (s s1 : State) (id : Int) (title description : String) (ip : IP)
    (now : Time) (io : Storage) (p : Ptr) (r : MessageCode)
    (hr : s.lookup id = some r)
    (h : modifyCode id title description ip now io s = (Outcome.returned (some p), s1)) :
    s1.deref p = some
        { Code := r.Code, Deleted := r.Deleted, Title := title, Description := description,
          Created := r.Created, CreatedIp := r.CreatedIp, Modified := now, ModifiedIp := ip } ∧
      s1.lookup id = s1.deref p ∧
      (s.Inv →
        (∀ k, k ∈ mapKeys s1.messageCodes ↔ k ∈ mapKeys s.messageCodes) ∧
        ∀ k, k ≠ id → s1.lookup k = s.lookup k) := by
  have hfree := modifyCode_returned_free _ _ _ _ _ _ _ _ _ h
  obtain ⟨q, hq, hh⟩ := lookup_some _ _ _ hr
  have h0 := h
  rw [modifyCode_present id title description ip now io s q r hfree hq hh] at h
  obtain ⟨-, hp, hs1⟩ := persist_returned_some _ _ _ _ _ h
  have hd : s1.deref p = some
      { r with Title := title, Description := description, Modified := now, ModifiedIp := ip } := by
    subst hp hs1
    exact getElem?_set_self_of_some _ _ _ _ hh
  refine ⟨hd, ?_, ?_⟩
  · rw [hd]
    exact modifyCode_lookup s s1 id title description ip now io (some p) r hr h0
  · intro hinv
    obtain ⟨hcode, halias⟩ := inv_no_alias s hinv id q r hq hh
    exact (modifyCode_frame s s1 id title description ip now io p r hr hcode halias h0).2.2

/-- C3 at the scenario `Modify(0, "Timeout Error", "Request took too long",
10.0.0.2)` made at time 2000 after the `Add` of the specification. -/
theorem modifyCode_spec_witness :
    timeoutState.lookup 0 = some timeoutRecord ∧
      modifyCode 0 "Timeout Error" "Request took too long" ip_10_0_0_2 2000 Storage.ok
          timeoutState = (Outcome.returned (some 0), timeoutErrorState) ∧
      timeoutState.Inv ∧
      timeoutErrorState.deref 0 = some
        { Code := 0, Deleted := false, Title := "Timeout Error",
          Description := "Request took too long", Created := 1000, CreatedIp := ip_10_0_0_1,
          Modified := 2000, ModifiedIp := ip_10_0_0_2 } ∧
      timeoutErrorState.lookup 0 = timeoutErrorState.deref 0 ∧
      (∀ k, k ∈ mapKeys timeoutErrorState.messageCodes ↔ k ∈ mapKeys timeoutState.messageCodes) ∧
      ∀ k, k ≠ 0 → timeoutErrorState.lookup k = timeoutState.lookup k :=
  ⟨rfl, by decide, timeoutState_inv,
   (modifyCode_spec timeoutState timeoutErrorState 0 "Timeout Error" "Request took too long"
      ip_10_0_0_2 2000 Storage.ok 0 timeoutRecord rfl (by decide)).1,
   (modifyCode_spec timeoutState timeoutErrorState 0 "Timeout Error" "Request took too long"
      ip_10_0_0_2 2000 Storage.ok 0 timeoutRecord rfl (by decide)).2.1,
   (modifyCode_spec timeoutState timeoutErrorState 0 "Timeout Error" "Request took too long"
      ip_10_0_0_2 2000 Storage.ok 0 timeoutRecord rfl (by decide)).2.2 timeoutState_inv⟩

/-- C4: for every table, every id present in it and every boolean `d`, after
`deleteCode(id, d, ip)` has returned the record stored under `id` has
`Deleted = d` and the same `Code`, `Title`, `Description`, `Created` and
`CreatedIp` as before; on every table of the program (one that satisfies the
registry invariant, as every table reached from the empty table or reloaded
from a snapshot of such a table does) the key set of the table is unchanged
and every other record is unchanged. -/
theorem deleteCode_spec (s s1 : State) (id : Int) (d : Bool) (ip : IP) (io : Storage)
    (o : Option Ptr) (r : MessageCode)
    (hr : s.lookup id = some r)
    (h : deleteCode id d ip io s = (Outcome.returned o, s1)) :
    (∃ r1, s1.lookup id = some r1 ∧ r1.Deleted = d ∧ r1.Code = r.Code ∧ r1.Title = r.Title ∧
        r1.Description = r.Description ∧ r1.Created = r.Created ∧
        r1.CreatedIp = r.CreatedIp) ∧
      (s.Inv →
        (∀ k, k ∈ mapKeys s1.messageCodes ↔ k ∈ mapKeys s.messageCodes) ∧
        ∀ k, k ≠ id → s1.lookup k = s.lookup k) := by
  have hfree := deleteCode_returned_free _ _ _ _ _ _ _ h
  obtain ⟨q, hq, hh⟩ := lookup_some _ _ _ hr
  have hl := deleteCode_lookup s id d ip io r hfree hr
  rw [h] at hl
  refine ⟨⟨{ r with Deleted := d }, hl, rfl, rfl, rfl, rfl, rfl, rfl⟩, ?_⟩
  intro hinv
  obtain ⟨hcode, halias⟩ := inv_no_alias s hinv id q r hq hh
  exact (deleteCode_frame s s1 id d ip io o r hr hcode halias h).2

/-- C4 on the table of `threeAdds` at `SetDeleted(1, true, 10.0.0.3)`: record
1 is still stored under key 1, now deleted, and records 0 and 2 are
unchanged. -/
theorem deleteCode_spec_witness :
    threeAddsState.Inv ∧
      (∃ r, threeAddsState.lookup 1 = some r) ∧
      (deleteCode 1 true ip_10_0_0_3 Storage.ok threeAddsState).1 = Outcome.returned (some 1) ∧
      (∃ r1, (deleteCode 1 true ip_10_0_0_3 Storage.ok threeAddsState).2.lookup 1 = some r1 ∧
        r1.Deleted = true ∧ r1.Code = 1 ∧ r1.Title = "b") ∧
      (∀ k, k ∈ mapKeys (deleteCode 1 true ip_10_0_0_3 Storage.ok threeAddsState).2.messageCodes
        ↔ k ∈ mapKeys threeAddsState.messageCodes) ∧
      ∀ k, k ≠ 1 → (deleteCode 1 true ip_10_0_0_3 Storage.ok threeAddsState).2.lookup k =
        threeAddsState.lookup k :=
  ⟨run_inv threeAdds State.empty threeAddsState [some 0, none, some 2] inv_empty (by decide),
   ⟨_, rfl⟩, by decide,
   ((deleteCode_spec threeAddsState _ 1 true ip_10_0_0_3 Storage.ok (some 1) _ rfl rfl).1).imp
     (fun _ h1 => ⟨h1.1, h1.2.1, h1.2.2.1, h1.2.2.2.1⟩),
   ((deleteCode_spec threeAddsState _ 1 true ip_10_0_0_3 Storage.ok (some 1) _ rfl rfl).2
     (run_inv threeAdds State.empty threeAddsState [some 0, none, some 2] inv_empty
       (by decide))).1,
   ((deleteCode_spec threeAddsState _ 1 true ip_10_0_0_3 Storage.ok (some 1) _ rfl rfl).2
     (run_inv threeAdds State.empty threeAddsState [some 0, none, some 2] inv_empty
       (by decide))).2⟩

end CodeRegistry
